import Mathlib

/-!
Shallow embedding of the xbrl-tag retrieval service core: the query pipeline
(`app/services/vectorstore.py` and `app/services/vectorstore_service.py`), the
reranker (`app/services/model_registry.py`), the jobs table
(`app/managers/jobs_manager.py` with the admission check of
`app/api/v1/jobs.py`), the index build pipeline (`app/services/job_service.py`),
the index cache (`app/core/index_cache.py`) and the model-copy helper
(`app/utils/copy_dir.py`).  Machine floats are modelled as real numbers,
Python dicts as insertion-ordered association lists, and the database /
filesystem as explicit functional state.
-/

namespace XbrlTag

/-! ### Data model (app/core/errors.py, langchain documents, result rows) -/

/-- Error codes of `AppException` that the modelled paths raise. -/
inductive ErrorCode where
  | validationError
  | modelNotLoaded
  | indexNotFound
  | dimensionMismatch
deriving DecidableEq, Repr

/-- `AppException(code, message, status_code)`. -/
structure AppException where
  code : ErrorCode
  message : String
  statusCode : Nat
deriving DecidableEq, Repr

/-- The metadata dict attached to every indexed document: keys `tag`,
`datatype`, `reference`, `taxonomy` (see `job_service.build_index_async`). -/
structure Meta where
  tag : String
  datatype : String
  reference : String
  taxonomy : String
deriving DecidableEq, Repr

/-- A langchain `Document`: page content plus the metadata dict. -/
structure Document where
  pageContent : String
  metadata : Meta
deriving DecidableEq, Repr

/-- One formatted query result row (`_format_search_results`). -/
structure QueryResult where
  tag : String
  datatype : String
  reference : String
  score : ℝ
  rank : Nat

/-! ### Stable descending sort

`CrossEncoderReranker.rerank` ends with Python's
`sorted(ranked, key=lambda x: x[1], reverse=True)`, a stable sort placed in
descending order of the pair's second component.  `sortRankedDesc` is the
stable descending insertion sort: an element is inserted in front of the
first element whose key is not larger, so earlier elements stay in front of
later elements with an equal key. -/

def insertRankedDesc {β : Type} {α : Type} [LinearOrder α]
    (x : β × α) : List (β × α) → List (β × α)
  | [] => [x]
  | y :: ys => if x.2 < y.2 then y :: insertRankedDesc x ys else x :: y :: ys

def sortRankedDesc {β : Type} {α : Type} [LinearOrder α] :
    List (β × α) → List (β × α)
  | [] => []
  | x :: xs => insertRankedDesc x (sortRankedDesc xs)


/-! ### `np.max` / `np.min` over a score vector

`numpy` rejects an empty array; the claims only concern nonempty raw-score
vectors, and the `[]` case below is an arbitrary default never reached under
the nonemptiness hypothesis. -/

noncomputable def listMax : List ℝ → ℝ
  | [] => 0
  | x :: xs => xs.foldl max x

noncomputable def listMin : List ℝ → ℝ
  | [] => 0
  | x :: xs => xs.foldl min x


/-! ### CrossEncoderReranker (app/services/model_registry.py, lines 41-62)

The cross-encoder model scores each (query, reference) pair independently:
`model.predict(pairs)` is one score per pair, modelled pointwise. -/

/-- The wrapped cross-encoder: `predict` on a batch of pairs scores each
pair independently. -/
structure CrossEncoderModel where
  predictOne : String × String → ℝ

/-- `CrossEncoderReranker(model, normalize_method="softmax")`. -/
structure CrossEncoderReranker where
  model : CrossEncoderModel
  normalizeMethod : String := "softmax"

/-- The score-normalization block of `CrossEncoderReranker.rerank`
(model_registry.py lines 50-59). -/
noncomputable def normalizeScores (method : String) (raw : List ℝ) : List ℝ :=
  if method = "softmax" then
    let expScores := raw.map (fun r => Real.exp (r - listMax raw))
    expScores.map (fun e => e / expScores.sum)
  else if method = "sigmoid" then
    raw.map (fun r => 1 / (1 + Real.exp (-r)))
  else if method = "minmax" then
    let minS := listMin raw
    let maxS := listMax raw
    if maxS ≠ minS then raw.map (fun r => (r - minS) / (maxS - minS))
    else raw.map (fun _ => 0.5)
  else raw


/-- `rerank(query, docs, top_k)`: score the (query, reference) pairs,
normalize, pair with the documents, stable-sort descending by score, and keep
the first `top_k`. -/
noncomputable def CrossEncoderReranker.rerank (rr : CrossEncoderReranker)
    (query : String) (docs : List Document) (topK : Nat) :
    List (Document × ℝ) :=
  let pairs := docs.map (fun d => (query, d.metadata.reference))
  let raw := pairs.map rr.model.predictOne
  let scores := normalizeScores rr.normalizeMethod raw
  (sortRankedDesc (docs.zip scores)).take topK


/-! ### Query engine (app/services/vectorstore.py and
app/services/vectorstore_service.py)

A loaded FAISS index is abstracted to its stored dimension `index.d` and its
`similarity_search_with_score` function, which returns (document, distance)
pairs nearest first.  The embedder is abstracted to `embed_query`; the `None`
return models the defensive `if q_vec is None` branch.  Raising an
`AppException` is modelled by returning `Except.error`. -/

structure FAISSIndex where
  d : Nat
  search : String → Nat → List (Document × ℝ)

structure Embedder where
  embedQueryFn : String → Option (List ℝ)

structure QueryRequest where
  query : String
  taxonomy : String
  k : Nat
  rerank : Bool

/-- `load_index`: `index_cache.get(taxonomy, embeddings)` abstracted to a
lookup of the (memory-or-disk) cache; `None` raises `INDEX_NOT_FOUND`. -/
def loadIndex (cache : String → Option FAISSIndex) (taxonomy : String) :
    Except AppException FAISSIndex :=
  match cache taxonomy with
  | some vs => .ok vs
  | none =>
      .error ⟨.indexNotFound,
        "FAISS index for taxonomy " ++ taxonomy ++ " was not found.", 404⟩

/-- `_validate_embedding_compatibility` of vectorstore_service.py (lines
28-44): the probe embedding of "test" is computed on every call. -/
def validateCompatFresh (vs : FAISSIndex) (embedder : Embedder) :
    Except AppException Unit :=
  match embedder.embedQueryFn "test" with
  | none =>
      .error ⟨.modelNotLoaded, "Embedder returned None for query embedding.",
        500⟩
  | some qVec =>
      if vs.d ≠ qVec.length then
        .error ⟨.dimensionMismatch,
          "Index dim (" ++ toString vs.d ++ ") != embedder dim ("
            ++ toString qVec.length ++ "). Rebuild the index with the active embedder.",
          409⟩
      else .ok ()

/-- `_validate_embedding_compatibility` of vectorstore.py (lines 28-49): the
probe dimension is cached in `self._embed_dim`; the pair returned is
(outcome, new `_embed_dim`). -/
def validateCompatCached (embedDim : Option Nat) (vs : FAISSIndex)
    (embedder : Embedder) : Except AppException Unit × Option Nat :=
  match embedDim with
  | none =>
      match embedder.embedQueryFn "test" with
      | none =>
          (.error ⟨.modelNotLoaded,
            "Embedder returned None for query embedding.", 500⟩, none)
      | some qVec =>
          if vs.d ≠ qVec.length then
            (.error ⟨.dimensionMismatch,
              "Index dim (" ++ toString vs.d ++ ") != embedder dim ("
                ++ toString qVec.length
                ++ "). Rebuild the index with the active embedder.",
              409⟩, some qVec.length)
          else (.ok (), some qVec.length)
  | some dim =>
      if vs.d ≠ dim then
        (.error ⟨.dimensionMismatch,
          "Index dim (" ++ toString vs.d ++ ") != embedder dim ("
            ++ toString dim ++ "). Rebuild the index with the active embedder.",
          409⟩, some dim)
      else (.ok (), some dim)

/-- `_format_search_results` (identical in both service files): enumerate the
pairs, keep a rerank score verbatim or convert a distance via `1/(1+d)`, and
assign rank `i+1`. -/
noncomputable def formatSearchResults (docsWithScores : List (Document × ℝ))
    (useRerankScore : Bool) : List QueryResult :=
  docsWithScores.enum.map (fun p =>
    { tag := p.2.1.metadata.tag
      datatype := p.2.1.metadata.datatype
      reference := p.2.1.metadata.reference
      score := if useRerankScore then p.2.2 else 1 / (1 + p.2.2)
      rank := p.1 + 1 })

/-- The search breadth of `query`: `max(req.k * 5, req.k) if req.rerank else
req.k`. -/
def kSearchOf (rerank : Bool) (k : Nat) : Nat :=
  if rerank then max (k * 5) k else k

/-- `VectorstoreService.query` of vectorstore_service.py (no probe cache). -/
noncomputable def queryFresh (cache : String → Option FAISSIndex)
    (req : QueryRequest) (embedder : Embedder)
    (reranker : CrossEncoderReranker) :
    Except AppException (String × String × List QueryResult) := do
  let vs ← loadIndex cache req.taxonomy
  let _ ← validateCompatFresh vs embedder
  let kSearch := kSearchOf req.rerank req.k
  let docsWithScores := vs.search req.query kSearch
  if req.rerank then
    let reranked := reranker.rerank req.query (docsWithScores.map Prod.fst)
      req.k
    pure (req.query, req.taxonomy, formatSearchResults reranked true)
  else
    pure (req.query, req.taxonomy,
      formatSearchResults (docsWithScores.take req.k) false)

/-- `VectorstoreService.query` of vectorstore.py: same pipeline but the probe
dimension is cached across calls on the service instance; the pair returned
is (outcome, new `_embed_dim`). -/
noncomputable def queryCached (embedDim : Option Nat)
    (cache : String → Option FAISSIndex) (req : QueryRequest)
    (embedder : Embedder) (reranker : CrossEncoderReranker) :
    Except AppException (String × String × List QueryResult) × Option Nat :=
  match loadIndex cache req.taxonomy with
  | .error e => (.error e, embedDim)
  | .ok vs =>
      match validateCompatCached embedDim vs embedder with
      | (.error e, embedDim') => (.error e, embedDim')
      | (.ok _, embedDim') =>
          let kSearch := kSearchOf req.rerank req.k
          let docsWithScores := vs.search req.query kSearch
          if req.rerank then
            (.ok (req.query, req.taxonomy,
              formatSearchResults
                (reranker.rerank req.query (docsWithScores.map Prod.fst)
                  req.k) true), embedDim')
          else
            (.ok (req.query, req.taxonomy,
              formatSearchResults (docsWithScores.take req.k) false),
              embedDim')

/-- One query invocation as the long-lived service instance sees it: a cache,
a request, and the registry's embedder/reranker of that moment (the registry
may have been hot-swapped between invocations). -/
structure QueryCall where
  cache : String → Option FAISSIndex
  req : QueryRequest
  embedder : Embedder
  reranker : CrossEncoderReranker

/-- The `_embed_dim` state of the vectorstore.py service instance after a
sequence of queries. -/
noncomputable def embedDimAfter (embedDim : Option Nat) :
    List QueryCall → Option Nat
  | [] => embedDim
  | c :: cs =>
      embedDimAfter
        (queryCached embedDim c.cache c.req c.embedder c.reranker).2 cs

/-! ### JobsManager (app/managers/jobs_manager.py) and the build-index
admission (app/api/v1/jobs.py, lines 38-71)

The job table is a Python dict `job_id -> JobState`, modelled as an
insertion-ordered association list: `set` on a present key updates it in
place, on a fresh key appends.  The wall-clock `created_at`/`updated_at`
fields are omitted (no claim mentions them).  A payload dict applied with
`setattr` is modelled as a field-overriding function `JobState → JobState`. -/

structure JobState where
  status : String := "queued"
  progress : Nat := 0
  total : Nat := 0
  done : Nat := 0
  taxonomy : Option String := none
  error : Option String := none
deriving DecidableEq, Repr

abbrev JobsTable := List (String × JobState)

namespace JobsManager

/-- `JobsManager.get`. -/
def get (t : JobsTable) (jobId : String) : Option JobState :=
  (t.find? (fun p => p.1 == jobId)).map Prod.snd

/-- `JobsManager.set(job_id, payload)`: apply the payload to the existing
state (or a fresh default) and store it under the key. -/
def set (t : JobsTable) (jobId : String) (payload : JobState → JobState) :
    JobsTable :=
  match get t jobId with
  | some _ => t.map (fun p => if p.1 = jobId then (p.1, payload p.2) else p)
  | none => t ++ [(jobId, payload {})]

/-- `JobsManager.update(job_id, **kwargs)`: apply the fields only if the job
exists. -/
def update (t : JobsTable) (jobId : String)
    (payload : JobState → JobState) : JobsTable :=
  match get t jobId with
  | some _ => t.map (fun p => if p.1 = jobId then (p.1, payload p.2) else p)
  | none => t

/-- A job state counting as an active build of `taxonomy`. -/
def ActiveFor (s : JobState) (taxonomy : String) : Prop :=
  s.taxonomy = some taxonomy ∧ (s.status = "queued" ∨ s.status = "running")

instance (s : JobState) (taxonomy : String) :
    Decidable (ActiveFor s taxonomy) := by
  unfold ActiveFor; infer_instance

/-- `find_active_for_taxonomy`: the first job of the taxonomy whose status is
queued or running. -/
def findActiveForTaxonomy (t : JobsTable) (taxonomy : String) :
    Option (String × JobState) :=
  t.find? (fun p => decide (ActiveFor p.2 taxonomy))

end JobsManager

/-- What `POST /jobs/build_index` returns. -/
inductive BuildIndexResponse where
  | alreadyRunning (jobId : String) (status : String)
  | started (jobId : String)
  | failed (e : AppException)
deriving DecidableEq, Repr

/-- The `build_index` endpoint (jobs.py lines 38-71): validation, the
duplicate-build admission check, and creation of the queued job.  `newId` is
the freshly drawn uuid4; `embedderLoaded` is `registry and registry.embedder`.
Dispatching the background task itself is modelled by `buildIndexAsync`
below. -/
def buildIndexEndpoint (t : JobsTable) (taxonomy : String) (newId : String)
    (embedderLoaded : Bool) : JobsTable × BuildIndexResponse :=
  if taxonomy = "" then
    (t, .failed ⟨.validationError, "taxonomy is required", 422⟩)
  else if ¬ embedderLoaded then
    (t, .failed ⟨.modelNotLoaded, "Active embedder not loaded", 500⟩)
  else
    match JobsManager.findActiveForTaxonomy t taxonomy with
    | some (jid, s) => (t, .alreadyRunning jid s.status)
    | none =>
        (JobsManager.set t newId (fun s =>
          { s with status := "queued", progress := 0, total := 0, done := 0,
                   taxonomy := some taxonomy }), .started newId)

/-- The sequential step relation over the job table: each step is one manager
operation as the code invokes it.  `accept` is the build_index endpoint with a
fresh uuid; `acceptUntargeted` is a finetune-endpoint job (its payload sets no
taxonomy); the remaining steps are the `jobs.update` calls of
`build_index_async`, whose discipline is that only the background task that
owns `jobId` mutates it: it marks running a job it created queued, and marks
progress or terminal states on its own job. -/
inductive JobsStep : JobsTable → JobsTable → Prop where
  | accept (t : JobsTable) (taxonomy newId : String)
      (hfresh : JobsManager.get t newId = none) :
      JobsStep t (buildIndexEndpoint t taxonomy newId true).1
  | acceptUntargeted (t : JobsTable) (newId : String) (f : JobState → JobState)
      (hfresh : JobsManager.get t newId = none)
      (htax : ∀ s, (f s).taxonomy = s.taxonomy) :
      JobsStep t (JobsManager.set t newId f)
  | start (t : JobsTable) (jobId : String) (s : JobState) (total : Nat)
      (hget : JobsManager.get t jobId = some s)
      (hqueued : s.status = "queued") :
      JobsStep t (JobsManager.update t jobId (fun s =>
        { s with status := "running", total := total, done := 0,
                 progress := 0 }))
  | progressUpd (t : JobsTable) (jobId : String) (done progress : Nat) :
      JobsStep t (JobsManager.update t jobId (fun s =>
        { s with done := done, progress := progress }))
  | fail (t : JobsTable) (jobId msg : String) :
      JobsStep t (JobsManager.update t jobId (fun s =>
        { s with status := "failed", error := some msg }))
  | complete (t : JobsTable) (jobId : String) (done total : Nat) :
      JobsStep t (JobsManager.update t jobId (fun s =>
        { s with status := "completed", done := done, total := total }))

/-- At most one job per taxonomy key is queued or running. -/
def AtMostOneActive (t : JobsTable) : Prop :=
  ∀ taxonomy : String,
    (t.countP (fun p => decide (JobsManager.ActiveFor p.2 taxonomy))) ≤ 1

/-- Python dict keys are unique; the table of a run always satisfies this. -/
def NodupKeys (t : JobsTable) : Prop := (t.map Prod.fst).Nodup


/-- The well-formedness invariant carried through the step relation. -/
def JobsInv (t : JobsTable) : Prop := NodupKeys t ∧ AtMostOneActive t


/-! ### IndexCache (app/core/index_cache.py)

A FAISS index built by `FAISS.from_embeddings(text_embeddings, embedding,
metadatas)` is its (text, vector) rows and the parallel metadata rows;
`merge_from` appends the other index's rows.  The memory cache and the
on-disk store are maps `taxonomy → index`; `exists_on_disk` is membership of
the disk map. -/

structure VecIndex where
  textEmbeddings : List (String × List ℝ)
  metadatas : List Meta

/-- `FAISS.merge_from`: vectors and docstore entries are appended. -/
noncomputable def VecIndex.mergeFrom (vs other : VecIndex) : VecIndex :=
  ⟨vs.textEmbeddings ++ other.textEmbeddings,
    vs.metadatas ++ other.metadatas⟩

structure IndexCacheState where
  cache : String → Option VecIndex
  disk : String → Option VecIndex

/-- `IndexCache.get(taxonomy, embeddings)`: memory first, else a disk load
(only when an embeddings object was supplied) that populates the memory
cache. -/
noncomputable def IndexCache.get (st : IndexCacheState) (taxonomy : String)
    (hasEmbeddings : Bool) : Option VecIndex × IndexCacheState :=
  match st.cache taxonomy with
  | some vs => (some vs, st)
  | none =>
      if hasEmbeddings then
        match st.disk taxonomy with
        | some vs =>
            (some vs,
              { st with cache := fun n =>
                  if n = taxonomy then some vs else st.cache n })
        | none => (none, st)
      else (none, st)

/-- `IndexCache.save(taxonomy, index=None)`: persist the given index or the
cached one; `ValueError` if neither exists. -/
noncomputable def IndexCache.save (st : IndexCacheState) (taxonomy : String)
    (index : Option VecIndex) : Except String IndexCacheState :=
  match index with
  | some idx =>
      .ok { st with disk := fun n =>
              if n = taxonomy then some idx else st.disk n }
  | none =>
      match st.cache taxonomy with
      | some idx =>
          .ok { st with disk := fun n =>
                  if n = taxonomy then some idx else st.disk n }
      | none => .error ("No index found for taxonomy: " ++ taxonomy)

/-- The failures `IndexCache.update` can propagate. -/
inductive UpdateError where
  | appExc (e : AppException)
  | valueError (msg : String)

/-- `IndexCache.update(taxonomy, new_docs, embeddings)`.  Besides the merged
index and the new state, the returned third component is the ghost trace of
arguments passed to `embeddings.embed_documents` — one call per new document,
each on a single-element list. -/
noncomputable def IndexCache.update (st : IndexCacheState) (taxonomy : String)
    (newDocs : List Document)
    (embedDocuments : List String → List (List ℝ)) :
    Except UpdateError (VecIndex × IndexCacheState × List (List String)) :=
  match IndexCache.get st taxonomy true with
  | (none, _) =>
      .error (.appExc ⟨.indexNotFound,
        "No existing index found for taxonomy: " ++ taxonomy, 404⟩)
  | (some existingIndex, st1) =>
      let texts := newDocs.map (fun d => d.pageContent)
      let metas := newDocs.map (fun d => d.metadata)
      let embedCalls := texts.map (fun text => [text])
      let vectors := texts.map (fun text => (embedDocuments [text]).getD 0 [])
      let newIndex : VecIndex := ⟨texts.zip vectors, metas⟩
      let merged := existingIndex.mergeFrom newIndex
      let st2 := { st1 with cache := fun n =>
          if n = taxonomy then some merged else st1.cache n }
      match IndexCache.save st2 taxonomy none with
      | .error msg => .error (.valueError msg)
      | .ok st3 => .ok (merged, st3, embedCalls)

/-! ### Index build pipeline (app/services/job_service.py, build_index_async)

The entry store is modelled with a stable insertion order:
`list_by_taxonomy(tid, offset, limit)` is `drop offset` then `take limit`,
and `count_by_taxonomy` the length, of one fixed entry list.  The batched
fetch loop of the source (offset += len(entries), stop on an empty fetch)
then walks exactly the 200-sized chunks.  An exception anywhere in the body
is modelled by `embed_documents` returning `.error` with the raw exception
text; the `try/except` boundary catches it.  The third result component is
the ghost trace of `(done, progress)` pairs written after each batch. -/

structure TaxEntry where
  tag : String
  datatype : Option String
  reference : Option String
deriving DecidableEq, Repr

structure TaxDB where
  taxonomyIdOf : String → Option Nat
  entriesOf : Nat → List TaxEntry

/-- The batches the fetch loop sees: successive 200-entry chunks. -/
def chunksOf200 {α : Type} : List α → List (List α)
  | [] => []
  | e :: rest => ((e :: rest).take 200) :: chunksOf200 ((e :: rest).drop 200)
termination_by l => l.length
decreasing_by
  simp only [List.length_drop, List.length_cons]
  omega

/-- Cumulative sums: the `done` counter after each batch, given the batch
sizes. -/
def cumSums : List Nat → List Nat
  | [] => []
  | n :: ns => n :: (cumSums ns).map (fun m => n + m)

noncomputable def buildLoop
    (embedDocuments : List String → Except String (List (List ℝ)))
    (taxonomy jobId : String) (total : Nat) :
    List (List TaxEntry) → JobsTable → Option VecIndex → Nat →
      JobsTable × Except String (Option VecIndex × Nat) × List (Nat × Nat)
  | [], jobs, vs, done => (jobs, .ok (vs, done), [])
  | batch :: rest, jobs, vs, done =>
      let texts := batch.map (fun e => (e.reference.getD "").trim)
      let metas := batch.map (fun e =>
        ({ tag := e.tag, datatype := e.datatype.getD "",
           reference := e.reference.getD "", taxonomy := taxonomy } : Meta))
      match embedDocuments texts with
      | .error msg => (jobs, .error msg, [])
      | .ok vectors =>
          let batchIndex : VecIndex := ⟨texts.zip vectors, metas⟩
          let vs' := some (match vs with
            | none => batchIndex
            | some v => v.mergeFrom batchIndex)
          let done' := done + batch.length
          let progress' := done' * 100 / total
          let jobs' := JobsManager.update jobs jobId (fun s =>
            { s with done := done', progress := progress' })
          let r := buildLoop embedDocuments taxonomy jobId total rest jobs'
            vs' done'
          (r.1, r.2.1, (done', progress') :: r.2.2)

/-- Everything `build_index_async` leaves behind: the job table, the index
cache, the on-disk index store, the returned value, and the ghost progress
trace. -/
structure BuildOutcome where
  jobs : JobsTable
  cache : String → Option VecIndex
  disk : String → Option VecIndex
  returned : Option VecIndex
  trace : List (Nat × Nat)

noncomputable def buildIndexAsync (db : TaxDB)
    (embedDocuments : List String → Except String (List (List ℝ)))
    (jobId taxonomy : String) (jobs0 : JobsTable)
    (cache disk : String → Option VecIndex) : BuildOutcome :=
  match db.taxonomyIdOf taxonomy with
  | none =>
      { jobs := JobsManager.update jobs0 jobId (fun s =>
          { s with status := "failed",
                   error := some ("Taxonomy '" ++ taxonomy ++ "' not found") }),
        cache := cache, disk := disk, returned := none, trace := [] }
  | some taxId =>
      let entries := db.entriesOf taxId
      let total := entries.length
      if total = 0 then
        { jobs := JobsManager.update jobs0 jobId (fun s =>
            { s with status := "failed",
                     error := some ("No entries found for taxonomy '"
                       ++ taxonomy ++ "'") }),
          cache := cache, disk := disk, returned := none, trace := [] }
      else
        let jobs1 := JobsManager.update jobs0 jobId (fun s =>
          { s with status := "running", total := total, done := 0,
                   progress := 0 })
        let r := buildLoop embedDocuments taxonomy jobId total
          (chunksOf200 entries) jobs1 none 0
        match r.2.1 with
        | .error _ =>
            { jobs := JobsManager.update r.1 jobId (fun s =>
                { s with status := "failed",
                         error := some "Unexpected error during indexing" }),
              cache := cache, disk := disk, returned := none,
              trace := r.2.2 }
        | .ok (none, _) =>
            { jobs := JobsManager.update r.1 jobId (fun s =>
                { s with status := "failed",
                         error := some "No documents were indexed" }),
              cache := cache, disk := disk, returned := none,
              trace := r.2.2 }
        | .ok (some vs, done) =>
            { jobs := JobsManager.update r.1 jobId (fun s =>
                { s with status := "completed", done := done,
                         total := total }),
              cache := fun n => if n = taxonomy then some vs else cache n,
              disk := fun n => if n = taxonomy then some vs else disk n,
              returned := some vs, trace := r.2.2 }

/-! ### copy_dir (app/utils/copy_dir.py) and
ModelRegistry.copy_active_models_to_local_runtime_and_load
(app/services/model_registry.py, lines 83-112)

A directory is its listing (name, content); a missing directory is `none`.
`copy_dir(src, dst)` raises `FileNotFoundError` when `src` is missing,
creates `dst`, deletes every item of a NON-empty `dst`, and then copies the
whole tree of `src` into it. -/

abbrev DirListing := List (String × String)

def copyDir (src : Option DirListing) (dst : Option DirListing) :
    Except String DirListing :=
  match src with
  | none => .error "Active model path not found"
  | some srcItems =>
      let dstItems := dst.getD []
      let cleared : DirListing := if dstItems.isEmpty then dstItems else []
      .ok (cleared ++ srcItems)

/-- The models loaded at the end of the copy-and-load startup flow, read
from the two runtime directories. -/
structure LoadedModels where
  embedderDir : DirListing
  rerankerDir : DirListing
deriving DecidableEq, Repr

/-- The copy-and-load part of
`copy_active_models_to_local_runtime_and_load`: copy the resolved active
embedder and reranker directories to the fixed runtime paths and load from
the copies. -/
def copyActiveModelsToLocalRuntimeAndLoad
    (activeEmbedderDir activeRerankerDir : Option DirListing)
    (runtimeEmbedderDir runtimeRerankerDir : Option DirListing) :
    Except String LoadedModels :=
  match copyDir activeEmbedderDir runtimeEmbedderDir with
  | .error e => .error e
  | .ok embDir =>
      match copyDir activeRerankerDir runtimeRerankerDir with
      | .error e => .error e
      | .ok rerDir => .ok ⟨embDir, rerDir⟩

/-! ### Concrete fixtures used by witnesses and counterexamples -/

def exDocA : Document :=
  ⟨"reference text a", ⟨"tagA", "string", "reference text a", "brsr"⟩⟩

def exDocB : Document :=
  ⟨"reference text b", ⟨"tagB", "string", "reference text b", "brsr"⟩⟩

/-- A 1-dimensional index over two documents with distances 0 and 1,
returned nearest first. -/
noncomputable def exIndex1 : FAISSIndex :=
  ⟨1, fun _ n => [(exDocA, (0 : ℝ)), (exDocB, 1)].take n⟩

/-- A 4-dimensional index whose search returns nothing. -/
noncomputable def exIndex4 : FAISSIndex := ⟨4, fun _ _ => []⟩

noncomputable def exCache1 : String → Option FAISSIndex := fun _ => some exIndex1

noncomputable def exCache4 : String → Option FAISSIndex := fun _ => some exIndex4

/-- An embedder of output dimension 1. -/
def exEmbedder1 : Embedder := ⟨fun _ => some [(0 : ℝ)]⟩

/-- An embedder of output dimension 8. -/
def exEmbedder8 : Embedder :=
  ⟨fun _ => some [(0 : ℝ), 0, 0, 0, 0, 0, 0, 0]⟩

/-- A reranker whose cross-encoder scores every pair 0, with pass-through
normalization. -/
def exReranker : CrossEncoderReranker := ⟨⟨fun _ => 0⟩, "none"⟩

/-- An existing index of 10 identical entries. -/
noncomputable def exIndex10 : VecIndex :=
  ⟨List.replicate 10 ("reference text a", [(0 : ℝ)]),
    List.replicate 10 ⟨"tagA", "string", "reference text a", "brsr"⟩⟩

/-- A cache state holding `exIndex10` in memory under "brsr", empty disk. -/
noncomputable def exCacheState : IndexCacheState :=
  ⟨fun t => if t = "brsr" then some exIndex10 else none, fun _ => none⟩

/-- A document-embedding stub mapping every text to the vector `[0]`. -/
def exEmbedDocs : List String → List (List ℝ) :=
  fun ts => ts.map (fun _ => [(0 : ℝ)])

/-- A job table holding one default (queued) job "j1". -/
def exJobs0 : JobsTable := [("j1", {})]

/-- A metadata store that knows no taxonomy. -/
def exTaxDBUnknown : TaxDB := ⟨fun _ => none, fun _ => []⟩

/-- A metadata store with taxonomy "brsr" (id 1) holding three entries. -/
def exTaxDB3 : TaxDB :=
  ⟨fun t => if t = "brsr" then some 1 else none,
    fun i => if i = 1 then
      [⟨"t1", some "string", some "ref one"⟩,
       ⟨"t2", some "string", some "ref two"⟩,
       ⟨"t3", none, none⟩]
    else []⟩

/-- A document embedder that succeeds on every batch with `[0]` vectors. -/
def exEmbedOk : List String → Except String (List (List ℝ)) :=
  fun ts => .ok (ts.map (fun _ => [(0 : ℝ)]))

def exNoVecIndex : String → Option VecIndex := fun _ => none

def exReqRerank : QueryRequest := ⟨"q", "brsr", 1, true⟩

def exReqPlain : QueryRequest := ⟨"q", "brsr", 1, false⟩

/-! ### Helper lemmas -/

theorem length_insertRankedDesc {β α : Type} [LinearOrder α] (x : β × α)
    (l : List (β × α)) : (insertRankedDesc x l).length = l.length + 1 := by
  induction l with
  | nil => rfl
  | cons y ys ih =>
      by_cases h : x.2 < y.2 <;> simp [insertRankedDesc, h, ih]

theorem length_sortRankedDesc {β α : Type} [LinearOrder α]
    (l : List (β × α)) : (sortRankedDesc l).length = l.length := by
  induction l with
  | nil => rfl
  | cons x xs ih => simp [sortRankedDesc, length_insertRankedDesc, ih]

theorem mem_insertRankedDesc {β α : Type} [LinearOrder α] {x z : β × α}
    {l : List (β × α)} (hz : z ∈ insertRankedDesc x l) : z = x ∨ z ∈ l := by
  induction l with
  | nil => simpa [insertRankedDesc] using hz
  | cons y ys ih =>
      by_cases h : x.2 < y.2
      · simp only [insertRankedDesc, if_pos h, List.mem_cons] at hz
        rcases hz with hz | hz
        · exact Or.inr (by simp [hz])
        · rcases ih hz with hz | hz
          · exact Or.inl hz
          · exact Or.inr (List.mem_cons_of_mem _ hz)
      · simp only [insertRankedDesc, if_neg h, List.mem_cons] at hz
        rcases hz with hz | hz | hz
        · exact Or.inl hz
        · exact Or.inr (by simp [hz])
        · exact Or.inr (List.mem_cons_of_mem _ hz)

/-- Inserting keeps a descending list descending. -/
theorem pairwise_insertRankedDesc {β α : Type} [LinearOrder α] (x : β × α)
    {l : List (β × α)} (hl : l.Pairwise (fun a b => b.2 ≤ a.2)) :
    (insertRankedDesc x l).Pairwise (fun a b => b.2 ≤ a.2) := by
  induction l with
  | nil => simp [insertRankedDesc]
  | cons y ys ih =>
      rcases List.pairwise_cons.mp hl with ⟨hy, hys⟩
      by_cases h : x.2 < y.2
      · rw [insertRankedDesc, if_pos h]
        refine List.pairwise_cons.mpr ⟨?_, ih hys⟩
        intro z hz
        rcases mem_insertRankedDesc hz with hz | hz
        · exact hz ▸ le_of_lt h
        · exact hy z hz
      · rw [insertRankedDesc, if_neg h]
        refine List.pairwise_cons.mpr ⟨?_, hl⟩
        intro z hz
        rcases List.mem_cons.mp hz with hz | hz
        · exact hz ▸ not_lt.mp h
        · exact le_trans (hy z hz) (not_lt.mp h)

theorem pairwise_sortRankedDesc {β α : Type} [LinearOrder α]
    (l : List (β × α)) :
    (sortRankedDesc l).Pairwise (fun a b => b.2 ≤ a.2) := by
  induction l with
  | nil => simp [sortRankedDesc]
  | cons x xs ih => exact pairwise_insertRankedDesc x ih

/-- Stability, stated through key filtering: inserting `x` and then keeping
only the pairs with key `s` is the same as prepending `x` before filtering. -/
theorem filter_insertRankedDesc {β α : Type} [LinearOrder α] (x : β × α)
    (l : List (β × α)) (s : α) :
    (insertRankedDesc x l).filter (fun p => decide (p.2 = s)) =
      (x :: l).filter (fun p => decide (p.2 = s)) := by
  induction l with
  | nil => rfl
  | cons y ys ih =>
      by_cases h : x.2 < y.2
      · rw [insertRankedDesc, if_pos h]
        by_cases hx : x.2 = s
        · have hy : ¬ y.2 = s := by
            intro hy
            rw [hx, ← hy] at h
            exact absurd h (lt_irrefl _)
          simp [List.filter_cons, hx, hy, ih]
        · by_cases hy : y.2 = s <;> simp [List.filter_cons, hx, hy, ih]
      · rw [insertRankedDesc, if_neg h]

/-- The stable descending sort keeps elements of a common key in their
original relative order. -/
theorem filter_sortRankedDesc {β α : Type} [LinearOrder α]
    (l : List (β × α)) (s : α) :
    (sortRankedDesc l).filter (fun p => decide (p.2 = s)) =
      l.filter (fun p => decide (p.2 = s)) := by
  induction l with
  | nil => rfl
  | cons x xs ih =>
      rw [sortRankedDesc, filter_insertRankedDesc]
      simp [List.filter_cons, ih]

theorem le_foldl_max (xs : List ℝ) (a : ℝ) : a ≤ xs.foldl max a := by
  induction xs generalizing a with
  | nil => exact le_refl a
  | cons y ys ih => exact le_trans (le_max_left a y) (ih (max a y))

theorem mem_le_foldl_max {x : ℝ} {xs : List ℝ} (hx : x ∈ xs) (a : ℝ) :
    x ≤ xs.foldl max a := by
  induction xs generalizing a with
  | nil => cases hx
  | cons y ys ih =>
      rcases List.mem_cons.mp hx with h | h
      · subst h
        show x ≤ ys.foldl max (max a x)
        exact le_trans (le_max_right a x) (le_foldl_max ys (max a x))
      · exact ih h (max a y)

theorem le_listMax {x : ℝ} {l : List ℝ} (hx : x ∈ l) : x ≤ listMax l := by
  cases l with
  | nil => cases hx
  | cons y ys =>
      rcases List.mem_cons.mp hx with h | h
      · exact h ▸ le_foldl_max ys y
      · exact mem_le_foldl_max h y

theorem foldl_min_le (xs : List ℝ) (a : ℝ) : xs.foldl min a ≤ a := by
  induction xs generalizing a with
  | nil => exact le_refl a
  | cons y ys ih => exact le_trans (ih (min a y)) (min_le_left a y)

theorem foldl_min_le_mem {x : ℝ} {xs : List ℝ} (hx : x ∈ xs) (a : ℝ) :
    xs.foldl min a ≤ x := by
  induction xs generalizing a with
  | nil => cases hx
  | cons y ys ih =>
      rcases List.mem_cons.mp hx with h | h
      · subst h
        show ys.foldl min (min a x) ≤ x
        exact le_trans (foldl_min_le ys (min a x)) (min_le_right a x)
      · exact ih h (min a y)

theorem listMin_le {x : ℝ} {l : List ℝ} (hx : x ∈ l) : listMin l ≤ x := by
  cases l with
  | nil => cases hx
  | cons y ys =>
      rcases List.mem_cons.mp hx with h | h
      · exact h ▸ foldl_min_le ys y
      · exact foldl_min_le_mem h y

theorem length_normalizeScores (method : String) (raw : List ℝ) :
    (normalizeScores method raw).length = raw.length := by
  by_cases h1 : method = "softmax"
  · simp [normalizeScores, h1]
  by_cases h2 : method = "sigmoid"
  · simp [normalizeScores, h1, h2]
  by_cases h3 : method = "minmax"
  · by_cases h4 : listMax raw ≠ listMin raw <;>
      simp [normalizeScores, h1, h2, h3, h4]
  · simp [normalizeScores, h1, h2, h3]

theorem length_rerank (rr : CrossEncoderReranker) (query : String)
    (docs : List Document) (topK : Nat) :
    (rr.rerank query docs topK).length = min topK docs.length := by
  simp [CrossEncoderReranker.rerank, length_sortRankedDesc,
    length_normalizeScores]

theorem eq_of_mem_of_nodupKeys {t : JobsTable} (hnd : NodupKeys t)
    {p q : String × JobState} (hp : p ∈ t) (hq : q ∈ t) (h : p.1 = q.1) :
    p = q := by
  induction t with
  | nil => cases hp
  | cons a l ih =>
      rcases List.nodup_cons.mp hnd with ⟨ha, hl⟩
      rcases List.mem_cons.mp hp with hp' | hp' <;>
        rcases List.mem_cons.mp hq with hq' | hq'
      · rw [hp', hq']
      · exfalso
        apply ha
        have : q.1 ∈ l.map Prod.fst := List.mem_map_of_mem Prod.fst hq'
        rwa [← h, hp'] at this
      · exfalso
        apply ha
        have : p.1 ∈ l.map Prod.fst := List.mem_map_of_mem Prod.fst hp'
        rwa [h, hq'] at this
      · exact ih hl hp' hq'

theorem get_eq_none_iff {t : JobsTable} {jobId : String} :
    JobsManager.get t jobId = none ↔ ∀ p ∈ t, p.1 ≠ jobId := by
  simp only [JobsManager.get, Option.map_eq_none', List.find?_eq_none,
    beq_iff_eq]

theorem mem_of_get_eq_some {t : JobsTable} {jobId : String} {s : JobState}
    (h : JobsManager.get t jobId = some s) : (jobId, s) ∈ t := by
  simp only [JobsManager.get, Option.map_eq_some'] at h
  rcases h with ⟨p, hp, hs⟩
  have hmem := List.mem_of_find?_eq_some hp
  have hkey : p.1 = jobId := by
    simpa using List.find?_some hp
  have : p = (jobId, s) := by
    cases p; simp_all
  exact this ▸ hmem

theorem keys_update (t : JobsTable) (jobId : String)
    (f : JobState → JobState) :
    (JobsManager.update t jobId f).map Prod.fst = t.map Prod.fst := by
  unfold JobsManager.update
  cases JobsManager.get t jobId with
  | none => rfl
  | some s =>
      simp only [List.map_map]
      apply List.map_congr_left
      intro p _
      by_cases h : p.1 = jobId <;> simp [h]

theorem nodupKeys_update {t : JobsTable} (hnd : NodupKeys t)
    (jobId : String) (f : JobState → JobState) :
    NodupKeys (JobsManager.update t jobId f) := by
  unfold NodupKeys
  rw [keys_update]
  exact hnd

/-- If the payload never turns an inactive state active, an `update` cannot
raise the active count of any taxonomy. -/
theorem countP_update_le (t : JobsTable) (jobId : String)
    (f : JobState → JobState) (taxonomy : String)
    (hf : ∀ s : JobState, JobsManager.ActiveFor (f s) taxonomy →
      JobsManager.ActiveFor s taxonomy) :
    (JobsManager.update t jobId f).countP
        (fun p => decide (JobsManager.ActiveFor p.2 taxonomy)) ≤
      t.countP (fun p => decide (JobsManager.ActiveFor p.2 taxonomy)) := by
  unfold JobsManager.update
  cases JobsManager.get t jobId with
  | none => exact le_refl _
  | some s =>
      rw [List.countP_map]
      apply List.countP_mono_left
      intro p _ hp
      simp only [Function.comp_apply] at hp
      by_cases h : p.1 = jobId
      · simp only [h, if_pos rfl, decide_eq_true_eq] at hp
        exact decide_eq_true (hf p.2 hp)
      · simpa [h] using hp

theorem activeFor_iff_of_queued {s : JobState} (hq : s.status = "queued")
    (taxonomy : String) (total : Nat) :
    JobsManager.ActiveFor
        { s with status := "running", total := total, done := 0,
                 progress := 0 } taxonomy ↔
      JobsManager.ActiveFor s taxonomy := by
  simp [JobsManager.ActiveFor, hq]

/-- Marking a queued job running keeps every taxonomy's active count
unchanged (the table has unique keys and the touched job is queued). -/
theorem countP_start_eq {t : JobsTable} (hnd : NodupKeys t)
    {jobId : String} {s : JobState}
    (hget : JobsManager.get t jobId = some s)
    (hqueued : s.status = "queued") (total : Nat) (taxonomy : String) :
    (JobsManager.update t jobId (fun s =>
        { s with status := "running", total := total, done := 0,
                 progress := 0 })).countP
        (fun p => decide (JobsManager.ActiveFor p.2 taxonomy)) =
      t.countP (fun p => decide (JobsManager.ActiveFor p.2 taxonomy)) := by
  unfold JobsManager.update
  rw [hget, List.countP_map]
  apply List.countP_congr
  intro p hp
  by_cases h : p.1 = jobId
  · have : p = (jobId, s) :=
      eq_of_mem_of_nodupKeys hnd hp (mem_of_get_eq_some hget) h
    subst this
    simp only [Function.comp_apply, if_pos rfl]
    simp [activeFor_iff_of_queued hqueued]
  · simp [h]

theorem countP_eq_zero_of_findActive_none {t : JobsTable}
    {taxonomy : String}
    (h : JobsManager.findActiveForTaxonomy t taxonomy = none) :
    t.countP (fun p => decide (JobsManager.ActiveFor p.2 taxonomy)) = 0 := by
  rw [List.countP_eq_zero]
  intro p hp
  have := List.find?_eq_none.mp h p hp
  simpa using this

theorem set_fresh_eq_append {t : JobsTable} {newId : String}
    (hfresh : JobsManager.get t newId = none) (f : JobState → JobState) :
    JobsManager.set t newId f = t ++ [(newId, f {})] := by
  unfold JobsManager.set
  rw [hfresh]

theorem jobsInv_nil : JobsInv [] := by
  constructor
  · simp [NodupKeys]
  · intro taxonomy; simp

theorem nodupKeys_append_fresh {t : JobsTable} {newId : String}
    (hnd : NodupKeys t) (hfresh : JobsManager.get t newId = none)
    (s : JobState) : NodupKeys (t ++ [(newId, s)]) := by
  unfold NodupKeys
  rw [List.map_append, List.nodup_append]
  refine ⟨hnd, List.nodup_singleton _, ?_⟩
  intro a ha hb
  simp only [List.map_cons, List.map_nil, List.mem_singleton] at hb
  rcases List.mem_map.mp ha with ⟨p, hp, hpa⟩
  exact (get_eq_none_iff.mp hfresh p hp) (hpa ▸ hb ▸ rfl)

theorem jobsInv_step {t t' : JobsTable} (hinv : JobsInv t)
    (hstep : JobsStep t t') : JobsInv t' := by
  rcases hinv with ⟨hnd, hone⟩
  cases hstep with
  | accept taxonomy newId hfresh =>
      unfold buildIndexEndpoint
      by_cases h0 : taxonomy = ""
      · simpa [h0] using And.intro hnd hone
      rw [if_neg h0, if_neg (by simp : ¬(¬true = true))]
      cases hfind : JobsManager.findActiveForTaxonomy t taxonomy with
      | some p => simpa [hfind] using And.intro hnd hone
      | none =>
          simp only [hfind]
          show JobsInv (JobsManager.set t newId _)
          rw [set_fresh_eq_append hfresh]
          constructor
          · exact nodupKeys_append_fresh hnd hfresh _
          · intro tax
            rw [List.countP_append]
            by_cases htax : tax = taxonomy
            · subst htax
              rw [countP_eq_zero_of_findActive_none hfind]
              simp [JobsManager.ActiveFor]
            · have : ¬ JobsManager.ActiveFor
                  ({ status := "queued", progress := 0, total := 0, done := 0,
                     taxonomy := some taxonomy,
                     error := ({} : JobState).error } : JobState) tax := by
                simp [JobsManager.ActiveFor]
                intro hc
                exact absurd hc.symm htax
              simpa [this] using hone tax
  | acceptUntargeted newId f hfresh htax =>
      rw [set_fresh_eq_append hfresh]
      constructor
      · exact nodupKeys_append_fresh hnd hfresh _
      · intro tax
        rw [List.countP_append]
        have : ¬ JobsManager.ActiveFor (f {}) tax := by
          intro hc
          have := hc.1
          rw [htax {}] at this
          simp [JobState.taxonomy] at this
        simpa [this] using hone tax
  | start jobId s total hget hqueued =>
      constructor
      · exact nodupKeys_update hnd jobId _
      · intro tax
        rw [countP_start_eq hnd hget hqueued total tax]
        exact hone tax
  | progressUpd jobId done progress =>
      constructor
      · exact nodupKeys_update hnd jobId _
      · intro tax
        refine le_trans (countP_update_le t jobId _ tax ?_) (hone tax)
        intro s hs
        exact ⟨hs.1, hs.2⟩
  | fail jobId msg =>
      constructor
      · exact nodupKeys_update hnd jobId _
      · intro tax
        refine le_trans (countP_update_le t jobId _ tax ?_) (hone tax)
        intro s hs
        rcases hs.2 with h | h <;> simp at h
  | complete jobId done total =>
      constructor
      · exact nodupKeys_update hnd jobId _
      · intro tax
        refine le_trans (countP_update_le t jobId _ tax ?_) (hone tax)
        intro s hs
        rcases hs.2 with h | h <;> simp at h

theorem jobsInv_reachable {t : JobsTable}
    (h : Relation.ReflTransGen JobsStep [] t) : JobsInv t := by
  induction h with
  | refl => exact jobsInv_nil
  | tail _ hstep ih => exact jobsInv_step ih hstep

/-! ### Claim theorems -/

/-- When the index loads and the dimension check passes, `query` of
vectorstore_service.py runs the similarity search at breadth
`kSearchOf req.rerank req.k` and formats either the reranked or the
truncated candidates. -/
theorem queryFresh_eval (cache : String → Option FAISSIndex)
    (req : QueryRequest) (embedder : Embedder) (rr : CrossEncoderReranker)
    (vs : FAISSIndex) (qVec : List ℝ)
    (hcache : cache req.taxonomy = some vs)
    (hprobe : embedder.embedQueryFn "test" = some qVec)
    (hdim : qVec.length = vs.d) :
    queryFresh cache req embedder rr =
      if req.rerank then
        .ok (req.query, req.taxonomy,
          formatSearchResults
            (rr.rerank req.query
              ((vs.search req.query (kSearchOf req.rerank req.k)).map
                Prod.fst) req.k) true)
      else
        .ok (req.query, req.taxonomy,
          formatSearchResults
            ((vs.search req.query (kSearchOf req.rerank req.k)).take req.k)
            false) := by
  unfold queryFresh loadIndex validateCompatFresh
  rw [hcache, hprobe]
  simp only [hdim]
  cases hr : req.rerank <;>
    simp [Bind.bind, Except.bind, Pure.pure, Except.pure, hr]

/-- C1: at-most-one-active-build admission.  For every job table and every
build request: when the table already holds a job of the taxonomy in status
queued or running, `build_index` leaves the table unchanged and answers with
the existing job's id and status; otherwise it appends exactly one new job in
state queued for the taxonomy.  Moreover, along the sequential step relation
over the jobs manager (from the empty table), at most one job per taxonomy
key is ever queued or running. -/
theorem buildIndex_admission_atMostOneActive (t : JobsTable)
    (taxonomy newId : String) (htax : taxonomy ≠ "") :
    (∀ (jid : String) (s : JobState),
      JobsManager.findActiveForTaxonomy t taxonomy = some (jid, s) →
        buildIndexEndpoint t taxonomy newId true =
          (t, .alreadyRunning jid s.status)) ∧
    (JobsManager.findActiveForTaxonomy t taxonomy = none →
      JobsManager.get t newId = none →
        buildIndexEndpoint t taxonomy newId true =
          (t ++ [(newId,
            { status := "queued", progress := 0, total := 0, done := 0,
              taxonomy := some taxonomy, error := none })],
            .started newId)) ∧
    (∀ t' : JobsTable, Relation.ReflTransGen JobsStep [] t' →
      AtMostOneActive t') := by
  refine ⟨?_, ?_, ?_⟩
  · intro jid s hfind
    unfold buildIndexEndpoint
    rw [if_neg htax, if_neg (by simp : ¬(¬true = true)), hfind]
  · intro hfind hfresh
    unfold buildIndexEndpoint
    rw [if_neg htax, if_neg (by simp : ¬(¬true = true)), hfind]
    rw [set_fresh_eq_append hfresh]
  · intro t' hreach
    exact (jobsInv_reachable hreach).2

/-- Witness for C1 at a table holding one running build of "brsr". -/
theorem buildIndex_admission_atMostOneActive_witness :
    ("brsr" : String) ≠ "" ∧
    ((∀ (jid : String) (s : JobState),
      JobsManager.findActiveForTaxonomy
          [("j1", { status := "running", progress := 0, total := 4, done := 0,
                    taxonomy := some "brsr", error := none })] "brsr" =
          some (jid, s) →
        buildIndexEndpoint
            [("j1", { status := "running", progress := 0, total := 4,
                      done := 0, taxonomy := some "brsr", error := none })]
            "brsr" "j2" true =
          ([("j1", { status := "running", progress := 0, total := 4,
                     done := 0, taxonomy := some "brsr", error := none })],
            .alreadyRunning jid s.status)) ∧
    (JobsManager.findActiveForTaxonomy
        [("j1", { status := "running", progress := 0, total := 4, done := 0,
                  taxonomy := some "brsr", error := none })] "brsr" = none →
      JobsManager.get
          [("j1", { status := "running", progress := 0, total := 4, done := 0,
                    taxonomy := some "brsr", error := none })] "j2" = none →
        buildIndexEndpoint
            [("j1", { status := "running", progress := 0, total := 4,
                      done := 0, taxonomy := some "brsr", error := none })]
            "brsr" "j2" true =
          ([("j1", { status := "running", progress := 0, total := 4,
                     done := 0, taxonomy := some "brsr", error := none })] ++
            [("j2", { status := "queued", progress := 0, total := 0,
                      done := 0, taxonomy := some "brsr", error := none })],
            .started "j2")) ∧
    (∀ t' : JobsTable, Relation.ReflTransGen JobsStep [] t' →
      AtMostOneActive t')) :=
  ⟨by decide,
    buildIndex_admission_atMostOneActive
      [("j1", { status := "running", progress := 0, total := 4, done := 0,
                taxonomy := some "brsr", error := none })]
      "brsr" "j2" (by decide)⟩

theorem sum_map_div (l : List ℝ) (c : ℝ) :
    (l.map (fun x => x / c)).sum = l.sum / c := by
  induction l with
  | nil => simp
  | cons x xs ih => simp [ih, add_div]

theorem listMin_le_listMax {raw : List ℝ} (hne : raw ≠ []) :
    listMin raw ≤ listMax raw := by
  cases raw with
  | nil => exact absurd rfl hne
  | cons x xs =>
      exact le_trans (listMin_le (List.mem_cons_self x xs))
        (le_listMax (List.mem_cons_self x xs))

theorem expScores_sum_pos {raw : List ℝ} (hne : raw ≠ []) :
    0 < (raw.map (fun r => Real.exp (r - listMax raw))).sum := by
  apply List.sum_pos
  · intro x hx
    rcases List.mem_map.mp hx with ⟨r, _, hr⟩
    exact hr ▸ Real.exp_pos _
  · simpa using hne

theorem normalizeScores_softmax_eq (raw : List ℝ) :
    normalizeScores "softmax" raw =
      (raw.map (fun r => Real.exp (r - listMax raw))).map
        (fun e => e / (raw.map (fun r => Real.exp (r - listMax raw))).sum) := by
  simp [normalizeScores]

theorem normalizeScores_sigmoid_eq (raw : List ℝ) :
    normalizeScores "sigmoid" raw =
      raw.map (fun r => 1 / (1 + Real.exp (-r))) := by
  simp [normalizeScores]

theorem normalizeScores_minmax_eq_of_ne (raw : List ℝ)
    (h : listMax raw ≠ listMin raw) :
    normalizeScores "minmax" raw =
      raw.map (fun r => (r - listMin raw) / (listMax raw - listMin raw)) := by
  simp [normalizeScores, h]

theorem normalizeScores_minmax_eq_of_eq (raw : List ℝ)
    (h : listMax raw = listMin raw) :
    normalizeScores "minmax" raw = raw.map (fun _ => 0.5) := by
  simp [normalizeScores, h]

theorem normalizeScores_other_eq (method : String) (raw : List ℝ)
    (h1 : method ≠ "softmax") (h2 : method ≠ "sigmoid")
    (h3 : method ≠ "minmax") : normalizeScores method raw = raw := by
  simp [normalizeScores, h1, h2, h3]

/-- C4: reranker score-normalization semantics over a nonempty raw-score
vector: softmax is `exp(r_i - max r) / Σ_j exp(r_j - max r)` (summing to 1,
each score in (0,1]); sigmoid is `1/(1+exp(-r_i))`; minmax is
`(r_i - min r)/(max r - min r)` when max ≠ min and uniformly 0.5 otherwise
(each score in [0,1]); any other method passes the raw scores through
unchanged. -/
theorem normalizeScores_semantics (raw : List ℝ) (hne : raw ≠ []) :
    (∀ (i : Nat) (hi : i < (normalizeScores "softmax" raw).length),
      (normalizeScores "softmax" raw).get ⟨i, hi⟩ =
        Real.exp (raw.get ⟨i, by
          rwa [length_normalizeScores] at hi⟩ - listMax raw) /
          (raw.map (fun r => Real.exp (r - listMax raw))).sum) ∧
    (normalizeScores "softmax" raw).sum = 1 ∧
    (∀ x ∈ normalizeScores "softmax" raw, 0 < x ∧ x ≤ 1) ∧
    normalizeScores "sigmoid" raw =
      raw.map (fun r => 1 / (1 + Real.exp (-r))) ∧
    (listMax raw ≠ listMin raw →
      normalizeScores "minmax" raw =
        raw.map (fun r =>
          (r - listMin raw) / (listMax raw - listMin raw))) ∧
    (listMax raw = listMin raw →
      normalizeScores "minmax" raw = raw.map (fun _ => 0.5)) ∧
    (∀ x ∈ normalizeScores "minmax" raw, 0 ≤ x ∧ x ≤ 1) ∧
    (∀ method : String, method ≠ "softmax" → method ≠ "sigmoid" →
      method ≠ "minmax" → normalizeScores method raw = raw) := by
  have hsum := expScores_sum_pos hne
  refine ⟨?_, ?_, ?_, ?_, ?_, ?_, ?_, ?_⟩
  · intro i hi
    rw [List.get_eq_getElem, List.get_eq_getElem]
    simp [normalizeScores_softmax_eq, List.getElem_map]
  · rw [normalizeScores_softmax_eq, sum_map_div]
    exact div_self (ne_of_gt hsum)
  · intro x hx
    rw [normalizeScores_softmax_eq] at hx
    rcases List.mem_map.mp hx with ⟨e, he, hex⟩
    have hepos : 0 < e := by
      rcases List.mem_map.mp he with ⟨r, _, hr⟩
      exact hr ▸ Real.exp_pos _
    have hele : e ≤ (raw.map (fun r => Real.exp (r - listMax raw))).sum := by
      apply List.single_le_sum _ _ he
      intro y hy
      rcases List.mem_map.mp hy with ⟨r, _, hr⟩
      exact hr ▸ le_of_lt (Real.exp_pos _)
    constructor
    · exact hex ▸ div_pos hepos hsum
    · exact hex ▸ (div_le_one hsum).mpr hele
  · exact normalizeScores_sigmoid_eq raw
  · intro hneq
    exact normalizeScores_minmax_eq_of_ne raw hneq
  · intro heq
    exact normalizeScores_minmax_eq_of_eq raw heq
  · intro x hx
    by_cases heq : listMax raw = listMin raw
    · rw [normalizeScores_minmax_eq_of_eq raw heq] at hx
      rcases List.mem_map.mp hx with ⟨r, _, hr⟩
      constructor <;> rw [← hr] <;> norm_num
    · rw [normalizeScores_minmax_eq_of_ne raw heq] at hx
      rcases List.mem_map.mp hx with ⟨r, hrmem, hr⟩
      have hlt : listMin raw < listMax raw :=
        lt_of_le_of_ne (listMin_le_listMax hne) (Ne.symm heq)
      have hpos : 0 < listMax raw - listMin raw := sub_pos.mpr hlt
      constructor
      · rw [← hr]
        exact div_nonneg (sub_nonneg.mpr (listMin_le hrmem)) (le_of_lt hpos)
      · rw [← hr]
        exact (div_le_one hpos).mpr (sub_le_sub_right (le_listMax hrmem) _)
  · intro method h1 h2 h3
    exact normalizeScores_other_eq method raw h1 h2 h3

/-- Witness for C4 at the one-element raw-score vector `[0]`. -/
theorem normalizeScores_semantics_witness :
    ([(0 : ℝ)] ≠ []) ∧
    ((∀ (i : Nat) (hi : i < (normalizeScores "softmax" [(0 : ℝ)]).length),
      (normalizeScores "softmax" [(0 : ℝ)]).get ⟨i, hi⟩ =
        Real.exp ([(0 : ℝ)].get ⟨i, by
          rwa [length_normalizeScores] at hi⟩ - listMax [(0 : ℝ)]) /
          ([(0 : ℝ)].map (fun r => Real.exp (r - listMax [(0 : ℝ)]))).sum) ∧
    (normalizeScores "softmax" [(0 : ℝ)]).sum = 1 ∧
    (∀ x ∈ normalizeScores "softmax" [(0 : ℝ)], 0 < x ∧ x ≤ 1) ∧
    normalizeScores "sigmoid" [(0 : ℝ)] =
      [(0 : ℝ)].map (fun r => 1 / (1 + Real.exp (-r))) ∧
    (listMax [(0 : ℝ)] ≠ listMin [(0 : ℝ)] →
      normalizeScores "minmax" [(0 : ℝ)] =
        [(0 : ℝ)].map (fun r =>
          (r - listMin [(0 : ℝ)]) / (listMax [(0 : ℝ)] - listMin [(0 : ℝ)]))) ∧
    (listMax [(0 : ℝ)] = listMin [(0 : ℝ)] →
      normalizeScores "minmax" [(0 : ℝ)] = [(0 : ℝ)].map (fun _ => 0.5)) ∧
    (∀ x ∈ normalizeScores "minmax" [(0 : ℝ)], 0 ≤ x ∧ x ≤ 1) ∧
    (∀ method : String, method ≠ "softmax" → method ≠ "sigmoid" →
      method ≠ "minmax" → normalizeScores method [(0 : ℝ)] = [(0 : ℝ)])) :=
  ⟨by simp, normalizeScores_semantics [(0 : ℝ)] (by simp)⟩

theorem length_formatSearchResults (docsWithScores : List (Document × ℝ))
    (useRerankScore : Bool) :
    (formatSearchResults docsWithScores useRerankScore).length =
      docsWithScores.length := by
  simp [formatSearchResults]

/-- With `use_rerank_score=True` the reported scores are the reranker scores
verbatim. -/
theorem formatSearchResults_score_map (docsWithScores : List (Document × ℝ)) :
    (formatSearchResults docsWithScores true).map (fun r => r.score) =
      docsWithScores.map Prod.snd := by
  have h : docsWithScores.map Prod.snd =
      docsWithScores.enum.map (fun p => p.2.2) := by
    conv_lhs => rw [← List.enum_map_snd docsWithScores]
    rw [List.map_map]
    rfl
  simp [formatSearchResults, List.map_map, h]

theorem pairwise_score_formatSearchResults
    {docsWithScores : List (Document × ℝ)}
    (h : docsWithScores.Pairwise (fun a b => b.2 ≤ a.2)) :
    (formatSearchResults docsWithScores true).Pairwise
      (fun a b => b.score ≤ a.score) := by
  have hmap := formatSearchResults_score_map docsWithScores
  have h2 : ((formatSearchResults docsWithScores true).map
      (fun r => r.score)).Pairwise (fun a b => b ≤ a) := by
    rw [hmap, List.pairwise_map]
    exact h
  rw [List.pairwise_map] at h2
  exact h2

theorem rerank_sorted (rr : CrossEncoderReranker) (query : String)
    (docs : List Document) (topK : Nat) :
    (rr.rerank query docs topK).Pairwise (fun a b => b.2 ≤ a.2) :=
  List.Pairwise.sublist (List.take_sublist topK _)
    (pairwise_sortRankedDesc _)

/-- C3: rerank candidate breadth and top-k bound.  With `rerank=true` the
similarity search runs at breadth `max(k*5, k)` (so, over an index holding
`N` vectors, `min (max(k*5,k)) N` candidates come back), the reranked result
list has length `min k (number of candidates)`, is sorted by non-increasing
normalized score, and the stable sort keeps candidates of equal score in the
original candidate order; with `rerank=false` the breadth is exactly `k`. -/
theorem rerank_breadth_topk (cache : String → Option FAISSIndex)
    (req : QueryRequest) (embedder : Embedder) (rr : CrossEncoderReranker)
    (vs : FAISSIndex) (qVec : List ℝ) (N : Nat)
    (hrerank : req.rerank = true)
    (hcache : cache req.taxonomy = some vs)
    (hprobe : embedder.embedQueryFn "test" = some qVec)
    (hdim : qVec.length = vs.d)
    (hsearch : ∀ (q : String) (n : Nat), (vs.search q n).length = min n N) :
    kSearchOf true req.k = max (req.k * 5) req.k ∧
    kSearchOf false req.k = req.k ∧
    (vs.search req.query (kSearchOf req.rerank req.k)).length =
      min (max (req.k * 5) req.k) N ∧
    queryFresh cache req embedder rr =
      .ok (req.query, req.taxonomy,
        formatSearchResults
          (rr.rerank req.query
            ((vs.search req.query (max (req.k * 5) req.k)).map Prod.fst)
            req.k) true) ∧
    (formatSearchResults
        (rr.rerank req.query
          ((vs.search req.query (max (req.k * 5) req.k)).map Prod.fst)
          req.k) true).length =
      min req.k (vs.search req.query (max (req.k * 5) req.k)).length ∧
    (formatSearchResults
        (rr.rerank req.query
          ((vs.search req.query (max (req.k * 5) req.k)).map Prod.fst)
          req.k) true).Pairwise (fun a b => b.score ≤ a.score) ∧
    (∀ s : ℝ,
      (sortRankedDesc
          (((vs.search req.query (max (req.k * 5) req.k)).map Prod.fst).zip
            (normalizeScores rr.normalizeMethod
              ((((vs.search req.query (max (req.k * 5) req.k)).map
                  Prod.fst).map
                (fun d => (req.query, d.metadata.reference))).map
                rr.model.predictOne)))).filter (fun p => decide (p.2 = s)) =
        (((vs.search req.query (max (req.k * 5) req.k)).map Prod.fst).zip
          (normalizeScores rr.normalizeMethod
            ((((vs.search req.query (max (req.k * 5) req.k)).map
                Prod.fst).map
              (fun d => (req.query, d.metadata.reference))).map
              rr.model.predictOne))).filter (fun p => decide (p.2 = s))) := by
  refine ⟨rfl, rfl, ?_, ?_, ?_, ?_, ?_⟩
  · rw [hsearch, hrerank]
    rfl
  · rw [queryFresh_eval cache req embedder rr vs qVec hcache hprobe hdim,
      hrerank]
    simp [kSearchOf]
  · rw [length_formatSearchResults, length_rerank]
    simp
  · exact pairwise_score_formatSearchResults
      (rerank_sorted rr req.query _ req.k)
  · intro s
    exact filter_sortRankedDesc _ s

/-- Witness for C3: a 1-dimensional two-document index, `k = 1`,
`rerank=true`. -/
theorem rerank_breadth_topk_witness :
    exReqRerank.rerank = true ∧
    exCache1 exReqRerank.taxonomy = some exIndex1 ∧
    exEmbedder1.embedQueryFn "test" = some [(0 : ℝ)] ∧
    ([(0 : ℝ)].length = exIndex1.d) ∧
    (∀ (q : String) (n : Nat), (exIndex1.search q n).length = min n 2) ∧
    (kSearchOf true exReqRerank.k = max (exReqRerank.k * 5) exReqRerank.k ∧
    kSearchOf false exReqRerank.k = exReqRerank.k ∧
    (exIndex1.search exReqRerank.query
        (kSearchOf exReqRerank.rerank exReqRerank.k)).length =
      min (max (exReqRerank.k * 5) exReqRerank.k) 2 ∧
    queryFresh exCache1 exReqRerank exEmbedder1 exReranker =
      .ok (exReqRerank.query, exReqRerank.taxonomy,
        formatSearchResults
          (exReranker.rerank exReqRerank.query
            ((exIndex1.search exReqRerank.query
              (max (exReqRerank.k * 5) exReqRerank.k)).map Prod.fst)
            exReqRerank.k) true) ∧
    (formatSearchResults
        (exReranker.rerank exReqRerank.query
          ((exIndex1.search exReqRerank.query
            (max (exReqRerank.k * 5) exReqRerank.k)).map Prod.fst)
          exReqRerank.k) true).length =
      min exReqRerank.k
        (exIndex1.search exReqRerank.query
          (max (exReqRerank.k * 5) exReqRerank.k)).length ∧
    (formatSearchResults
        (exReranker.rerank exReqRerank.query
          ((exIndex1.search exReqRerank.query
            (max (exReqRerank.k * 5) exReqRerank.k)).map Prod.fst)
          exReqRerank.k) true).Pairwise (fun a b => b.score ≤ a.score) ∧
    (∀ s : ℝ,
      (sortRankedDesc
          (((exIndex1.search exReqRerank.query
              (max (exReqRerank.k * 5) exReqRerank.k)).map Prod.fst).zip
            (normalizeScores exReranker.normalizeMethod
              ((((exIndex1.search exReqRerank.query
                  (max (exReqRerank.k * 5) exReqRerank.k)).map
                  Prod.fst).map
                (fun d => (exReqRerank.query, d.metadata.reference))).map
                exReranker.model.predictOne)))).filter
            (fun p => decide (p.2 = s)) =
        (((exIndex1.search exReqRerank.query
            (max (exReqRerank.k * 5) exReqRerank.k)).map Prod.fst).zip
          (normalizeScores exReranker.normalizeMethod
            ((((exIndex1.search exReqRerank.query
                (max (exReqRerank.k * 5) exReqRerank.k)).map
                Prod.fst).map
              (fun d => (exReqRerank.query, d.metadata.reference))).map
              exReranker.model.predictOne))).filter
          (fun p => decide (p.2 = s)))) :=
  ⟨rfl, rfl, rfl, by simp [exIndex1], by
    intro q n
    simp [exIndex1],
    rerank_breadth_topk exCache1 exReqRerank exEmbedder1 exReranker exIndex1
      [(0 : ℝ)] 2 rfl rfl rfl (by simp [exIndex1])
      (by intro q n; simp [exIndex1])⟩

/-- With `use_rerank_score=False` the reported scores are `1/(1+distance)`. -/
theorem formatSearchResults_score_map_plain
    (docsWithScores : List (Document × ℝ)) :
    (formatSearchResults docsWithScores false).map (fun r => r.score) =
      docsWithScores.map (fun p => 1 / (1 + p.2)) := by
  rw [formatSearchResults, List.map_map]
  conv_rhs => rw [← List.enum_map_snd docsWithScores, List.map_map]
  rfl

/-- C5: non-reranked score formula and ordering.  With `rerank=false` the
candidate list is truncated to the first `k` results, result `i` (0-based)
carries rank `i+1` and score `1/(1+distance_i)`; under the nearest-first
order and non-negative distances the scores are non-increasing in rank and
lie in (0,1]. -/
theorem plain_score_formula_ordering (cache : String → Option FAISSIndex)
    (req : QueryRequest) (embedder : Embedder) (rr : CrossEncoderReranker)
    (vs : FAISSIndex) (qVec : List ℝ)
    (hrerank : req.rerank = false)
    (hcache : cache req.taxonomy = some vs)
    (hprobe : embedder.embedQueryFn "test" = some qVec)
    (hdim : qVec.length = vs.d)
    (hsorted : (vs.search req.query req.k).Pairwise
      (fun a b => a.2 ≤ b.2))
    (hnneg : ∀ p ∈ vs.search req.query req.k, (0 : ℝ) ≤ p.2) :
    queryFresh cache req embedder rr =
      .ok (req.query, req.taxonomy,
        formatSearchResults ((vs.search req.query req.k).take req.k)
          false) ∧
    (∀ (i : Nat)
      (hi : i < (formatSearchResults
        ((vs.search req.query req.k).take req.k) false).length),
      ((formatSearchResults ((vs.search req.query req.k).take req.k)
          false).get ⟨i, hi⟩).rank = i + 1 ∧
      ((formatSearchResults ((vs.search req.query req.k).take req.k)
          false).get ⟨i, hi⟩).score =
        1 / (1 + (((vs.search req.query req.k).take req.k).get ⟨i, by
          rwa [length_formatSearchResults] at hi⟩).2)) ∧
    (formatSearchResults ((vs.search req.query req.k).take req.k)
        false).Pairwise (fun a b => b.score ≤ a.score) ∧
    (∀ r ∈ formatSearchResults ((vs.search req.query req.k).take req.k)
        false, 0 < r.score ∧ r.score ≤ 1) := by
  have hnneg' : ∀ p ∈ (vs.search req.query req.k).take req.k, (0 : ℝ) ≤ p.2 :=
    fun p hp => hnneg p (List.mem_of_mem_take hp)
  refine ⟨?_, ?_, ?_, ?_⟩
  · rw [queryFresh_eval cache req embedder rr vs qVec hcache hprobe hdim,
      hrerank]
    simp [kSearchOf]
  · intro i hi
    have hi' : i < ((vs.search req.query req.k).take req.k).length := by
      rwa [length_formatSearchResults] at hi
    constructor
    · rw [List.get_eq_getElem]
      simp [formatSearchResults, List.getElem_enum]
    · rw [List.get_eq_getElem, List.get_eq_getElem]
      simp [formatSearchResults, List.getElem_enum]
  · have hmap := formatSearchResults_score_map_plain
      ((vs.search req.query req.k).take req.k)
    have hsorted' : ((vs.search req.query req.k).take req.k).Pairwise
        (fun a b => a.2 ≤ b.2) :=
      List.Pairwise.sublist (List.take_sublist req.k _) hsorted
    have h2 : ((formatSearchResults
        ((vs.search req.query req.k).take req.k) false).map
        (fun r => r.score)).Pairwise (fun a b => b ≤ a) := by
      rw [hmap, List.pairwise_map]
      apply List.Pairwise.imp_of_mem ?_ hsorted'
      intro a b ha _ hab
      apply one_div_le_one_div_of_le
      · linarith [hnneg' a ha]
      · linarith
    rw [List.pairwise_map] at h2
    exact h2
  · intro r hr
    have : r.score ∈ (formatSearchResults
        ((vs.search req.query req.k).take req.k) false).map
        (fun r => r.score) := List.mem_map_of_mem _ hr
    rw [formatSearchResults_score_map_plain] at this
    rcases List.mem_map.mp this with ⟨p, hp, hps⟩
    have h0 : (0 : ℝ) ≤ p.2 := hnneg' p hp
    constructor
    · rw [← hps]
      positivity
    · rw [← hps]
      rw [div_le_one (by linarith)]
      linarith

/-- Witness for C5 on the two-document index with distances 0 and 1. -/
theorem plain_score_formula_ordering_witness :
    exReqPlain.rerank = false ∧
    exCache1 exReqPlain.taxonomy = some exIndex1 ∧
    exEmbedder1.embedQueryFn "test" = some [(0 : ℝ)] ∧
    ([(0 : ℝ)].length = exIndex1.d) ∧
    (exIndex1.search exReqPlain.query exReqPlain.k).Pairwise
      (fun a b => a.2 ≤ b.2) ∧
    (∀ p ∈ exIndex1.search exReqPlain.query exReqPlain.k, (0 : ℝ) ≤ p.2) ∧
    (queryFresh exCache1 exReqPlain exEmbedder1 exReranker =
      .ok (exReqPlain.query, exReqPlain.taxonomy,
        formatSearchResults
          ((exIndex1.search exReqPlain.query exReqPlain.k).take exReqPlain.k)
          false) ∧
    (∀ (i : Nat)
      (hi : i < (formatSearchResults
        ((exIndex1.search exReqPlain.query exReqPlain.k).take exReqPlain.k)
        false).length),
      ((formatSearchResults
          ((exIndex1.search exReqPlain.query exReqPlain.k).take exReqPlain.k)
          false).get ⟨i, hi⟩).rank = i + 1 ∧
      ((formatSearchResults
          ((exIndex1.search exReqPlain.query exReqPlain.k).take exReqPlain.k)
          false).get ⟨i, hi⟩).score =
        1 / (1 + (((exIndex1.search exReqPlain.query exReqPlain.k).take
            exReqPlain.k).get ⟨i, by
          rwa [length_formatSearchResults] at hi⟩).2)) ∧
    (formatSearchResults
        ((exIndex1.search exReqPlain.query exReqPlain.k).take exReqPlain.k)
        false).Pairwise (fun a b => b.score ≤ a.score) ∧
    (∀ r ∈ formatSearchResults
        ((exIndex1.search exReqPlain.query exReqPlain.k).take exReqPlain.k)
        false, 0 < r.score ∧ r.score ≤ 1)) :=
  ⟨rfl, rfl, rfl, by simp [exIndex1],
    by simp [exIndex1, exReqPlain],
    by
      intro p hp
      have hpe : p = (exDocA, (0 : ℝ)) := by
        simpa [exIndex1, exReqPlain] using hp
      rw [hpe],
    plain_score_formula_ordering exCache1 exReqPlain exEmbedder1 exReranker
      exIndex1 [(0 : ℝ)] rfl rfl rfl (by simp [exIndex1])
      (by simp [exIndex1, exReqPlain])
      (by
        intro p hp
        have hpe : p = (exDocA, (0 : ℝ)) := by
          simpa [exIndex1, exReqPlain] using hp
        rw [hpe])⟩

/-- C2 (amended): dimension gate.  `query()` raises `DimensionMismatch` and
returns no results whenever the dimension used for the comparison differs
from the index's stored dimension.  In the vectorstore_service.py variant
that comparison dimension is always the current probe-embedding length; in
the vectorstore.py variant it is the probe length only while `_embed_dim` is
unset (first query) — afterwards the cached value is compared, so the gate
fires exactly when the cached value differs from the stored dimension,
regardless of the current embedder. -/
theorem dimension_gate (cache : String → Option FAISSIndex)
    (req : QueryRequest) (embedder : Embedder) (rr : CrossEncoderReranker)
    (vs : FAISSIndex) (qVec : List ℝ)
    (hcache : cache req.taxonomy = some vs)
    (hprobe : embedder.embedQueryFn "test" = some qVec) :
    (qVec.length ≠ vs.d →
      ∃ e : AppException, queryFresh cache req embedder rr = .error e ∧
        e.code = .dimensionMismatch) ∧
    (qVec.length ≠ vs.d →
      ∃ e : AppException,
        (queryCached none cache req embedder rr).1 = .error e ∧
        e.code = .dimensionMismatch ∧
        (queryCached none cache req embedder rr).2 = some qVec.length) ∧
    (∀ dim : Nat, dim ≠ vs.d →
      ∃ e : AppException,
        (queryCached (some dim) cache req embedder rr).1 = .error e ∧
        e.code = .dimensionMismatch ∧
        (queryCached (some dim) cache req embedder rr).2 = some dim) := by
  refine ⟨?_, ?_, ?_⟩
  · intro hne
    unfold queryFresh loadIndex validateCompatFresh
    simp only [hcache, hprobe, Bind.bind, Except.bind]
    rw [if_pos (fun h => hne h.symm)]
    exact ⟨_, rfl, rfl⟩
  · intro hne
    unfold queryCached loadIndex validateCompatCached
    simp only [hcache, hprobe]
    rw [if_pos (fun h => hne h.symm)]
    exact ⟨_, rfl, rfl, rfl⟩
  · intro dim hne
    unfold queryCached loadIndex validateCompatCached
    simp only [hcache]
    rw [if_pos (fun h => hne h.symm)]
    exact ⟨_, rfl, rfl, rfl⟩

/-- Witness for C2 (amended): a 4-dimensional index probed by an
8-dimensional embedder. -/
theorem dimension_gate_witness :
    exCache4 exReqPlain.taxonomy = some exIndex4 ∧
    exEmbedder8.embedQueryFn "test" =
      some [(0 : ℝ), 0, 0, 0, 0, 0, 0, 0] ∧
    (([(0 : ℝ), 0, 0, 0, 0, 0, 0, 0].length ≠ exIndex4.d →
      ∃ e : AppException,
        queryFresh exCache4 exReqPlain exEmbedder8 exReranker = .error e ∧
        e.code = .dimensionMismatch) ∧
    ([(0 : ℝ), 0, 0, 0, 0, 0, 0, 0].length ≠ exIndex4.d →
      ∃ e : AppException,
        (queryCached none exCache4 exReqPlain exEmbedder8 exReranker).1 =
          .error e ∧
        e.code = .dimensionMismatch ∧
        (queryCached none exCache4 exReqPlain exEmbedder8 exReranker).2 =
          some [(0 : ℝ), 0, 0, 0, 0, 0, 0, 0].length) ∧
    (∀ dim : Nat, dim ≠ exIndex4.d →
      ∃ e : AppException,
        (queryCached (some dim) exCache4 exReqPlain exEmbedder8
            exReranker).1 = .error e ∧
        e.code = .dimensionMismatch ∧
        (queryCached (some dim) exCache4 exReqPlain exEmbedder8
            exReranker).2 = some dim)) :=
  ⟨rfl, rfl,
    dimension_gate exCache4 exReqPlain exEmbedder8 exReranker exIndex4
      [(0 : ℝ), 0, 0, 0, 0, 0, 0, 0] rfl rfl⟩

/-- Counterexample to C2 as frozen: on the vectorstore.py variant, a
service whose cached probe dimension (4) matches the index dimension (4)
serves the query with NO `DimensionMismatch` although the current active
embedder's probe-embedding length is 8 ≠ 4. -/
theorem dimension_gate_counterexample :
    exIndex4.d = 4 ∧
    exEmbedder8.embedQueryFn "test" =
      some [(0 : ℝ), 0, 0, 0, 0, 0, 0, 0] ∧
    [(0 : ℝ), 0, 0, 0, 0, 0, 0, 0].length = 8 ∧
    (queryCached (some 4) exCache4 exReqPlain exEmbedder8 exReranker).1 =
      .ok (exReqPlain.query, exReqPlain.taxonomy, []) :=
  ⟨rfl, rfl, rfl, rfl⟩

/-- C10: probe-dimension caching invariant of the vectorstore.py service.
`_embed_dim` is set on the first query that reaches the validation (to the
probe-embedding length of the embedder active at that moment), is never
recomputed or cleared afterwards — over any later sequence of queries with
arbitrary caches, requests and (possibly hot-swapped) embedders — and every
later compatibility check compares the index dimension against the cached
value: the gate outcome is `vs.d ≠ dim`, independent of the current
embedder. -/
theorem embedDim_computed_once :
    (∀ (cache : String → Option FAISSIndex) (req : QueryRequest)
      (embedder : Embedder) (rr : CrossEncoderReranker) (vs : FAISSIndex)
      (qVec : List ℝ), cache req.taxonomy = some vs →
      embedder.embedQueryFn "test" = some qVec →
        (queryCached none cache req embedder rr).2 = some qVec.length) ∧
    (∀ (dim : Nat) (cache : String → Option FAISSIndex) (req : QueryRequest)
      (embedder : Embedder) (rr : CrossEncoderReranker),
        (queryCached (some dim) cache req embedder rr).2 = some dim) ∧
    (∀ (dim : Nat) (cache : String → Option FAISSIndex) (req : QueryRequest)
      (embedder : Embedder) (rr : CrossEncoderReranker) (vs : FAISSIndex),
      cache req.taxonomy = some vs →
        ((∃ e : AppException,
          (queryCached (some dim) cache req embedder rr).1 = .error e ∧
          e.code = .dimensionMismatch) ↔ vs.d ≠ dim)) ∧
    (∀ (dim : Nat) (calls : List QueryCall),
      embedDimAfter (some dim) calls = some dim) := by
  have hstable : ∀ (dim : Nat) (cache : String → Option FAISSIndex)
      (req : QueryRequest) (embedder : Embedder)
      (rr : CrossEncoderReranker),
      (queryCached (some dim) cache req embedder rr).2 = some dim := by
    intro dim cache req embedder rr
    unfold queryCached loadIndex validateCompatCached
    cases hc : cache req.taxonomy with
    | none => rfl
    | some vs =>
        dsimp only
        by_cases h : vs.d = dim
        · rw [if_neg (by simpa using h)]
          cases req.rerank <;> rfl
        · rw [if_pos (by simpa using h)]
  refine ⟨?_, hstable, ?_, ?_⟩
  · intro cache req embedder rr vs qVec hcache hprobe
    unfold queryCached loadIndex validateCompatCached
    simp only [hcache, hprobe]
    by_cases h : vs.d = qVec.length
    · rw [if_neg (by simpa using h)]
      cases req.rerank <;> rfl
    · rw [if_pos (by simpa using h)]
  · intro dim cache req embedder rr vs hcache
    unfold queryCached loadIndex validateCompatCached
    simp only [hcache]
    by_cases h : vs.d = dim
    · rw [if_neg (by simpa using h)]
      constructor
      · intro hex
        rcases hex with ⟨e, he, _⟩
        cases hr : req.rerank <;> rw [hr] at he <;> simp at he
      · intro hne
        exact absurd h hne
    · rw [if_pos (by simpa using h)]
      constructor
      · intro _
        exact h
      · intro _
        exact ⟨_, rfl, rfl⟩
  · intro dim calls
    induction calls generalizing dim with
    | nil => rfl
    | cons c cs ih =>
        show embedDimAfter
          (queryCached (some dim) c.cache c.req c.embedder c.reranker).2 cs =
            some dim
        rw [hstable dim c.cache c.req c.embedder c.reranker]
        exact ih dim

theorem copyDir_some (s : DirListing) (d : Option DirListing) :
    copyDir (some s) d = .ok s := by
  unfold copyDir
  dsimp only
  by_cases h : (d.getD []).isEmpty
  · rw [if_pos h, List.isEmpty_iff.mp h]
    rfl
  · rw [if_neg h]
    rfl

/-- C9 (amended): first-touch model copy does not hold — the copy step always
runs.  `copy_dir` deletes every item of a non-empty destination and then
copies the source tree in, so after
`copy_active_models_to_local_runtime_and_load` the fixed runtime paths hold
exactly the active model directory contents regardless of what was there
before, and the models are loaded from those runtime copies; a missing
source raises `FileNotFoundError`. -/
theorem copy_models_always_overwrites (embSrc rerSrc : DirListing)
    (embDst rerDst : Option DirListing) :
    copyDir (some embSrc) embDst = .ok embSrc ∧
    copyActiveModelsToLocalRuntimeAndLoad (some embSrc) (some rerSrc)
      embDst rerDst = .ok ⟨embSrc, rerSrc⟩ ∧
    copyDir none embDst = .error "Active model path not found" := by
  refine ⟨copyDir_some embSrc embDst, ?_, rfl⟩
  unfold copyActiveModelsToLocalRuntimeAndLoad
  rw [copyDir_some embSrc embDst, copyDir_some rerSrc rerDst]

/-- Counterexample to C9 as frozen: a NON-empty destination directory is not
left unchanged by the copy step — its content is replaced by the source
content. -/
theorem copy_models_counterexample :
    copyDir (some [("model.bin", "new")]) (some [("stale.bin", "old")]) =
      .ok [("model.bin", "new")] ∧
    ([("model.bin", "new")] : DirListing) ≠ [("stale.bin", "old")] := by
  refine ⟨rfl, ?_⟩
  decide

/-- C8: update/merge non-deduplication.  `update(taxonomy, new_docs,
embeddings)` over a cached index with N rows and M new documents embeds each
new document with its own `embed_documents` call on a single-element list
(M calls), appends the M new (text, vector) rows and metadata rows to the
existing index — no deduplication, even for identical texts, since the
appended rows are exactly the new ones — stores the merged index in the
memory cache and persists it to disk. -/
theorem update_append_no_dedup (st : IndexCacheState) (taxonomy : String)
    (newDocs : List Document) (embedDocuments : List String → List (List ℝ))
    (ex : VecIndex) (hcache : st.cache taxonomy = some ex) :
    ∃ r : VecIndex × IndexCacheState × List (List String),
      IndexCache.update st taxonomy newDocs embedDocuments = .ok r ∧
      r.2.2 = newDocs.map (fun d => [d.pageContent]) ∧
      r.1.textEmbeddings = ex.textEmbeddings ++
        ((newDocs.map (fun d => d.pageContent)).zip
          ((newDocs.map (fun d => d.pageContent)).map
            (fun text => (embedDocuments [text]).getD 0 []))) ∧
      r.1.metadatas = ex.metadatas ++ newDocs.map (fun d => d.metadata) ∧
      r.1.textEmbeddings.length =
        ex.textEmbeddings.length + newDocs.length ∧
      r.1.metadatas.length = ex.metadatas.length + newDocs.length ∧
      r.2.1.cache taxonomy = some r.1 ∧
      r.2.1.disk taxonomy = some r.1 := by
  unfold IndexCache.update IndexCache.get IndexCache.save
  simp only [hcache]
  refine ⟨_, rfl, ?_, rfl, rfl, ?_, ?_, ?_, ?_⟩
  · simp [List.map_map]
  · simp [VecIndex.mergeFrom]
  · simp [VecIndex.mergeFrom]
  · simp
  · simp

/-- Witness for C8: two new documents with identical reference text added to
a cached 10-entry index. -/
theorem update_append_no_dedup_witness :
    exCacheState.cache "brsr" = some exIndex10 ∧
    (∃ r : VecIndex × IndexCacheState × List (List String),
      IndexCache.update exCacheState "brsr" [exDocA, exDocA] exEmbedDocs =
        .ok r ∧
      r.2.2 = [exDocA, exDocA].map (fun d => [d.pageContent]) ∧
      r.1.textEmbeddings = exIndex10.textEmbeddings ++
        (([exDocA, exDocA].map (fun d => d.pageContent)).zip
          (([exDocA, exDocA].map (fun d => d.pageContent)).map
            (fun text => (exEmbedDocs [text]).getD 0 []))) ∧
      r.1.metadatas = exIndex10.metadatas ++
        [exDocA, exDocA].map (fun d => d.metadata) ∧
      r.1.textEmbeddings.length =
        exIndex10.textEmbeddings.length + [exDocA, exDocA].length ∧
      r.1.metadatas.length =
        exIndex10.metadatas.length + [exDocA, exDocA].length ∧
      r.2.1.cache "brsr" = some r.1 ∧
      r.2.1.disk "brsr" = some r.1) :=
  ⟨rfl, update_append_no_dedup exCacheState "brsr" [exDocA, exDocA]
    exEmbedDocs exIndex10 rfl⟩

theorem find?_update_map (t : JobsTable) (jobId : String)
    (f : JobState → JobState) :
    (t.map (fun p => if p.1 = jobId then (p.1, f p.2) else p)).find?
        (fun p => p.1 == jobId) =
      (t.find? (fun p => p.1 == jobId)).map
        (fun p => (p.1, f p.2)) := by
  induction t with
  | nil => rfl
  | cons p ps ih =>
      by_cases h : p.1 = jobId
      · simp [List.find?_cons, h]
      · simp [List.find?_cons, h, ih]

theorem get_update (t : JobsTable) (jobId : String)
    (f : JobState → JobState) :
    JobsManager.get (JobsManager.update t jobId f) jobId =
      (JobsManager.get t jobId).map f := by
  unfold JobsManager.update
  cases hg : JobsManager.get t jobId with
  | none => simp [hg]
  | some s =>
      unfold JobsManager.get at hg ⊢
      rw [find?_update_map]
      rcases Option.map_eq_some'.mp hg with ⟨p, hp, hps⟩
      rw [hp]
      simp [hps]

theorem get_buildLoop_isSome
    (embedDocuments : List String → Except String (List (List ℝ)))
    (taxonomy jobId : String) (total : Nat) :
    ∀ (batches : List (List TaxEntry)) (jobs : JobsTable)
      (vs : Option VecIndex) (done : Nat),
      (JobsManager.get jobs jobId).isSome →
      (JobsManager.get
        (buildLoop embedDocuments taxonomy jobId total batches jobs vs
          done).1 jobId).isSome := by
  intro batches
  induction batches with
  | nil => intro jobs vs done h; exact h
  | cons batch rest ih =>
      intro jobs vs done h
      unfold buildLoop
      dsimp only
      cases hemb : embedDocuments (batch.map
          (fun e => (e.reference.getD "").trim)) with
      | error msg => exact h
      | ok vectors =>
          dsimp only
          apply ih
          rw [get_update]
          rcases Option.isSome_iff_exists.mp h with ⟨s, hs⟩
          rw [hs]
          rfl

/-- The ghost (done, progress) trace of a run of the batch loop in which
every embedding call succeeds. -/
theorem buildLoop_trace
    (embedDocuments : List String → Except String (List (List ℝ)))
    (taxonomy jobId : String) (total : Nat)
    (hembed : ∀ ts, ∃ vecs, embedDocuments ts = .ok vecs) :
    ∀ (batches : List (List TaxEntry)) (jobs : JobsTable)
      (vs : Option VecIndex) (done : Nat),
      (buildLoop embedDocuments taxonomy jobId total batches jobs vs
          done).2.2 =
        (cumSums (batches.map List.length)).map
          (fun d => (done + d, (done + d) * 100 / total)) := by
  intro batches
  induction batches with
  | nil => intro jobs vs done; rfl
  | cons batch rest ih =>
      intro jobs vs done
      unfold buildLoop
      dsimp only
      rcases hembed (batch.map (fun e => (e.reference.getD "").trim)) with
        ⟨vecs, hv⟩
      rw [hv]
      dsimp only
      rw [ih]
      simp only [cumSums, List.map_cons, List.map_map]
      congr 1
      apply List.map_congr_left
      intro d _
      simp only [Function.comp_apply]
      rw [Nat.add_assoc]

/-- A run of the batch loop in which every embedding call succeeds returns
`ok`, accumulates every batch into `done`, and yields an index as soon as
the initial accumulator or at least one batch exists. -/
theorem buildLoop_result
    (embedDocuments : List String → Except String (List (List ℝ)))
    (taxonomy jobId : String) (total : Nat)
    (hembed : ∀ ts, ∃ vecs, embedDocuments ts = .ok vecs) :
    ∀ (batches : List (List TaxEntry)) (jobs : JobsTable)
      (vs : Option VecIndex) (done : Nat),
      ∃ ov : Option VecIndex,
        (buildLoop embedDocuments taxonomy jobId total batches jobs vs
            done).2.1 = .ok (ov, done + (batches.map List.length).sum) ∧
        (ov.isSome = true ↔ vs.isSome = true ∨ batches ≠ []) := by
  intro batches
  induction batches with
  | nil =>
      intro jobs vs done
      refine ⟨vs, by simp [buildLoop], by simp⟩
  | cons batch rest ih =>
      intro jobs vs done
      unfold buildLoop
      dsimp only
      rcases hembed (batch.map (fun e => (e.reference.getD "").trim)) with
        ⟨vecs, hv⟩
      rw [hv]
      dsimp only
      rcases ih (JobsManager.update jobs jobId (fun s =>
          { s with done := done + batch.length,
                   progress := (done + batch.length) * 100 / total }))
        (some (match vs with
          | none =>
              ⟨(batch.map (fun e => (e.reference.getD "").trim)).zip vecs,
                batch.map (fun e =>
                  ({ tag := e.tag, datatype := e.datatype.getD "",
                     reference := e.reference.getD "",
                     taxonomy := taxonomy } : Meta))⟩
          | some v =>
              v.mergeFrom
                ⟨(batch.map (fun e => (e.reference.getD "").trim)).zip vecs,
                  batch.map (fun e =>
                    ({ tag := e.tag, datatype := e.datatype.getD "",
                       reference := e.reference.getD "",
                       taxonomy := taxonomy } : Meta))⟩))
        (done + batch.length) with ⟨ov, hok, hsome⟩
      refine ⟨ov, ?_, ?_⟩
      · rw [hok]
        simp [Nat.add_assoc]
      · simp only [Option.isSome_some, true_or, iff_true] at hsome ⊢
        simp [hsome]

theorem getLast?_cons_ne {α : Type} (x : α) {l : List α} (h : l ≠ []) :
    (x :: l).getLast? = l.getLast? := by
  cases l with
  | nil => exact absurd rfl h
  | cons y ys => exact List.getLast?_cons_cons

theorem cumSums_ne_nil {sizes : List Nat} (h : sizes ≠ []) :
    cumSums sizes ≠ [] := by
  cases sizes with
  | nil => exact absurd rfl h
  | cons n ns => simp [cumSums]

theorem cumSums_getLast? : ∀ {sizes : List Nat}, sizes ≠ [] →
    (cumSums sizes).getLast? = some sizes.sum := by
  intro sizes
  induction sizes with
  | nil => intro h; exact absurd rfl h
  | cons n ns ih =>
      intro _
      cases ns with
      | nil => simp [cumSums]
      | cons m ms =>
          have hne : (cumSums (m :: ms)).map (fun x => n + x) ≠ [] := by
            simp [cumSums]
          rw [cumSums, getLast?_cons_ne _ hne, List.getLast?_map,
            ih (by simp)]
          simp

theorem cumSums_pairwise (sizes : List Nat) :
    (cumSums sizes).Pairwise (fun a b => a ≤ b) := by
  induction sizes with
  | nil => simp [cumSums]
  | cons n ns ih =>
      rw [cumSums]
      refine List.pairwise_cons.mpr ⟨?_, ?_⟩
      · intro x hx
        rcases List.mem_map.mp hx with ⟨y, _, hy⟩
        rw [← hy]
        exact Nat.le_add_right n y
      · rw [List.pairwise_map]
        exact ih.imp (fun h => Nat.add_le_add_left h n)

theorem chunksOf200_flatten {α : Type} (l : List α) :
    (chunksOf200 l).flatten = l := by
  induction l using chunksOf200.induct with
  | case1 =>
      rw [chunksOf200]
      rfl
  | case2 e rest ih =>
      rw [chunksOf200]
      simp only [List.flatten_cons, ih]
      exact List.take_append_drop 200 (e :: rest)

theorem chunksOf200_ne_nil {α : Type} {l : List α} (h : l ≠ []) :
    chunksOf200 l ≠ [] := by
  cases l with
  | nil => exact absurd rfl h
  | cons e rest =>
      rw [chunksOf200]
      simp

theorem chunksOf200_sum_length {α : Type} (l : List α) :
    ((chunksOf200 l).map List.length).sum = l.length := by
  rw [← List.length_flatten, chunksOf200_flatten]

/-- C6: build job failure boundary.  `build_index_async` marks the job
failed with a descriptive message and returns (it never raises — the model
is a total function) when the taxonomy is unknown or has zero entries; and
when any embedding call raises, the exception is caught at the job boundary
and the job is marked failed with the fixed message "Unexpected error during
indexing", which is the same for every raw exception text `msg`. -/
theorem build_failure_boundary (db : TaxDB)
    (embedDocuments : List String → Except String (List (List ℝ)))
    (jobId taxonomy : String) (jobs0 : JobsTable)
    (cache disk : String → Option VecIndex) (s0 : JobState)
    (hjob : JobsManager.get jobs0 jobId = some s0) :
    (db.taxonomyIdOf taxonomy = none →
      JobsManager.get
          (buildIndexAsync db embedDocuments jobId taxonomy jobs0 cache
            disk).jobs jobId =
        some { s0 with status := "failed",
                       error := some ("Taxonomy '" ++ taxonomy
                         ++ "' not found") } ∧
      (buildIndexAsync db embedDocuments jobId taxonomy jobs0 cache
        disk).returned = none) ∧
    (∀ taxId : Nat, db.taxonomyIdOf taxonomy = some taxId →
      db.entriesOf taxId = [] →
      JobsManager.get
          (buildIndexAsync db embedDocuments jobId taxonomy jobs0 cache
            disk).jobs jobId =
        some { s0 with status := "failed",
                       error := some ("No entries found for taxonomy '"
                         ++ taxonomy ++ "'") } ∧
      (buildIndexAsync db embedDocuments jobId taxonomy jobs0 cache
        disk).returned = none) ∧
    (∀ (taxId : Nat) (msg : String),
      db.taxonomyIdOf taxonomy = some taxId →
      db.entriesOf taxId ≠ [] →
      (buildLoop embedDocuments taxonomy jobId
          (db.entriesOf taxId).length (chunksOf200 (db.entriesOf taxId))
          (JobsManager.update jobs0 jobId (fun s =>
            { s with status := "running",
                     total := (db.entriesOf taxId).length, done := 0,
                     progress := 0 })) none 0).2.1 = .error msg →
      ∃ s' : JobState,
        JobsManager.get
            (buildIndexAsync db embedDocuments jobId taxonomy jobs0 cache
              disk).jobs jobId = some s' ∧
        s'.status = "failed" ∧
        s'.error = some "Unexpected error during indexing" ∧
        (buildIndexAsync db embedDocuments jobId taxonomy jobs0 cache
          disk).returned = none) := by
  refine ⟨?_, ?_, ?_⟩
  · intro hnone
    unfold buildIndexAsync
    rw [hnone]
    exact ⟨by rw [get_update, hjob]; rfl, rfl⟩
  · intro taxId htax hz
    unfold buildIndexAsync
    rw [htax]
    dsimp only
    rw [hz]
    simp only [List.length_nil, if_true]
    exact ⟨by rw [get_update, hjob]; rfl, trivial⟩
  · intro taxId msg htax hne hloop
    unfold buildIndexAsync
    rw [htax]
    dsimp only
    rw [if_neg (fun hc => hne (List.length_eq_zero.mp hc))]
    rw [hloop]
    dsimp only
    have hsome : (JobsManager.get
        (buildLoop embedDocuments taxonomy jobId
          (db.entriesOf taxId).length (chunksOf200 (db.entriesOf taxId))
          (JobsManager.update jobs0 jobId (fun s =>
            { s with status := "running",
                     total := (db.entriesOf taxId).length, done := 0,
                     progress := 0 })) none 0).1 jobId).isSome := by
      apply get_buildLoop_isSome
      rw [get_update, hjob]
      rfl
    rcases Option.isSome_iff_exists.mp hsome with ⟨s1, hs1⟩
    refine ⟨{ s1 with
                status := "failed",
                error := some "Unexpected error during indexing" }, ?_, rfl,
      rfl, rfl⟩
    rw [get_update, hs1]
    rfl

/-- Witness for C6: a job table holding "j1" and a metadata store with no
taxonomies. -/
theorem build_failure_boundary_witness :
    JobsManager.get exJobs0 "j1" = some {} ∧
    ((exTaxDBUnknown.taxonomyIdOf "brsr" = none →
      JobsManager.get
          (buildIndexAsync exTaxDBUnknown exEmbedOk "j1" "brsr" exJobs0
            exNoVecIndex exNoVecIndex).jobs "j1" =
        some { ({} : JobState) with
                 status := "failed",
                 error := some ("Taxonomy '" ++ "brsr" ++ "' not found") } ∧
      (buildIndexAsync exTaxDBUnknown exEmbedOk "j1" "brsr" exJobs0
        exNoVecIndex exNoVecIndex).returned = none) ∧
    (∀ taxId : Nat, exTaxDBUnknown.taxonomyIdOf "brsr" = some taxId →
      exTaxDBUnknown.entriesOf taxId = [] →
      JobsManager.get
          (buildIndexAsync exTaxDBUnknown exEmbedOk "j1" "brsr" exJobs0
            exNoVecIndex exNoVecIndex).jobs "j1" =
        some { ({} : JobState) with
                 status := "failed",
                 error := some ("No entries found for taxonomy '"
                   ++ "brsr" ++ "'") } ∧
      (buildIndexAsync exTaxDBUnknown exEmbedOk "j1" "brsr" exJobs0
        exNoVecIndex exNoVecIndex).returned = none) ∧
    (∀ (taxId : Nat) (msg : String),
      exTaxDBUnknown.taxonomyIdOf "brsr" = some taxId →
      exTaxDBUnknown.entriesOf taxId ≠ [] →
      (buildLoop exEmbedOk "brsr" "j1"
          (exTaxDBUnknown.entriesOf taxId).length
          (chunksOf200 (exTaxDBUnknown.entriesOf taxId))
          (JobsManager.update exJobs0 "j1" (fun s =>
            { s with status := "running",
                     total := (exTaxDBUnknown.entriesOf taxId).length,
                     done := 0, progress := 0 })) none 0).2.1 =
        .error msg →
      ∃ s' : JobState,
        JobsManager.get
            (buildIndexAsync exTaxDBUnknown exEmbedOk "j1" "brsr" exJobs0
              exNoVecIndex exNoVecIndex).jobs "j1" = some s' ∧
        s'.status = "failed" ∧
        s'.error = some "Unexpected error during indexing" ∧
        (buildIndexAsync exTaxDBUnknown exEmbedOk "j1" "brsr" exJobs0
          exNoVecIndex exNoVecIndex).returned = none)) :=
  ⟨rfl, build_failure_boundary exTaxDBUnknown exEmbedOk "j1" "brsr" exJobs0
    exNoVecIndex exNoVecIndex {} rfl⟩

/-- C7: build progress accounting.  On a successful run over a taxonomy with
at least one entry, the (done, progress) pairs written after the batches are
exactly the cumulative batch sizes paired with `floor(done*100/total)`,
progress is monotonically non-decreasing and the last write is
`(total, 100)`; at completion the job is "completed" with `done = total`,
and the built index is returned, published in the cache and persisted. -/
theorem build_progress_accounting (db : TaxDB)
    (embedDocuments : List String → Except String (List (List ℝ)))
    (jobId taxonomy : String) (jobs0 : JobsTable)
    (cache disk : String → Option VecIndex) (taxId : Nat) (s0 : JobState)
    (htax : db.taxonomyIdOf taxonomy = some taxId)
    (hne : db.entriesOf taxId ≠ [])
    (hembed : ∀ ts, ∃ vecs, embedDocuments ts = .ok vecs)
    (hjob : JobsManager.get jobs0 jobId = some s0) :
    (buildIndexAsync db embedDocuments jobId taxonomy jobs0 cache
        disk).trace =
      (cumSums ((chunksOf200 (db.entriesOf taxId)).map List.length)).map
        (fun d => (d, d * 100 / (db.entriesOf taxId).length)) ∧
    (buildIndexAsync db embedDocuments jobId taxonomy jobs0 cache
        disk).trace.Pairwise (fun a b => a.2 ≤ b.2) ∧
    (buildIndexAsync db embedDocuments jobId taxonomy jobs0 cache
        disk).trace.getLast? =
      some ((db.entriesOf taxId).length, 100) ∧
    (∃ s' : JobState,
      JobsManager.get
          (buildIndexAsync db embedDocuments jobId taxonomy jobs0 cache
            disk).jobs jobId = some s' ∧
      s'.status = "completed" ∧
      s'.done = (db.entriesOf taxId).length ∧
      s'.total = (db.entriesOf taxId).length) ∧
    (∃ vsf : VecIndex,
      (buildIndexAsync db embedDocuments jobId taxonomy jobs0 cache
        disk).returned = some vsf ∧
      (buildIndexAsync db embedDocuments jobId taxonomy jobs0 cache
        disk).cache taxonomy = some vsf ∧
      (buildIndexAsync db embedDocuments jobId taxonomy jobs0 cache
        disk).disk taxonomy = some vsf) := by
  have htotal : ((chunksOf200 (db.entriesOf taxId)).map List.length).sum =
      (db.entriesOf taxId).length := chunksOf200_sum_length _
  have htotpos : 0 < (db.entriesOf taxId).length := List.length_pos.mpr hne
  obtain ⟨ov, hok, hsome⟩ :=
    buildLoop_result embedDocuments taxonomy jobId
      (db.entriesOf taxId).length hembed (chunksOf200 (db.entriesOf taxId))
      (JobsManager.update jobs0 jobId (fun s =>
        { s with status := "running",
                 total := (db.entriesOf taxId).length, done := 0,
                 progress := 0 })) none 0
  obtain ⟨vsf, hvsf⟩ := Option.isSome_iff_exists.mp
    (hsome.mpr (Or.inr (chunksOf200_ne_nil hne)))
  rw [hvsf] at hok
  have htrace := buildLoop_trace embedDocuments taxonomy jobId
    (db.entriesOf taxId).length hembed (chunksOf200 (db.entriesOf taxId))
    (JobsManager.update jobs0 jobId (fun s =>
      { s with status := "running",
               total := (db.entriesOf taxId).length, done := 0,
               progress := 0 })) none 0
  have hs1 := Option.isSome_iff_exists.mp
    (get_buildLoop_isSome embedDocuments taxonomy jobId
      (db.entriesOf taxId).length (chunksOf200 (db.entriesOf taxId))
      (JobsManager.update jobs0 jobId (fun s =>
        { s with status := "running",
                 total := (db.entriesOf taxId).length, done := 0,
                 progress := 0 })) none 0
      (by rw [get_update, hjob]; rfl))
  obtain ⟨s1, hs1⟩ := hs1
  have hsizes : (chunksOf200 (db.entriesOf taxId)).map List.length ≠ [] :=
    fun hc =>
      chunksOf200_ne_nil hne (List.map_eq_nil_iff.mp hc)
  unfold buildIndexAsync
  rw [htax]
  dsimp only
  rw [if_neg (fun hc => hne (List.length_eq_zero.mp hc)), hok]
  dsimp only
  refine ⟨?_, ?_, ?_, ?_, ?_⟩
  · rw [htrace]
    simp only [Nat.zero_add]
  · rw [htrace]
    simp only [Nat.zero_add]
    rw [List.pairwise_map]
    apply (cumSums_pairwise _).imp
    intro a b hab
    exact Nat.div_le_div_right (Nat.mul_le_mul_right 100 hab)
  · rw [htrace, List.getLast?_map, cumSums_getLast? hsizes, htotal]
    simp only [Option.map_some', Nat.zero_add]
    rw [Nat.mul_div_cancel_left 100 htotpos]
  · refine ⟨{ s1 with
        status := "completed",
        done := 0 + ((chunksOf200 (db.entriesOf taxId)).map List.length).sum,
        total := (db.entriesOf taxId).length }, ?_, rfl, ?_, rfl⟩
    · rw [get_update, hs1]
      rfl
    · simp [htotal]
  · exact ⟨vsf, rfl, by simp, by simp⟩

/-- Witness for C7: a successful build of the three-entry taxonomy "brsr". -/
theorem build_progress_accounting_witness :
    exTaxDB3.taxonomyIdOf "brsr" = some 1 ∧
    exTaxDB3.entriesOf 1 ≠ [] ∧
    (∀ ts, ∃ vecs, exEmbedOk ts = .ok vecs) ∧
    JobsManager.get exJobs0 "j1" = some {} ∧
    ((buildIndexAsync exTaxDB3 exEmbedOk "j1" "brsr" exJobs0 exNoVecIndex
        exNoVecIndex).trace =
      (cumSums ((chunksOf200 (exTaxDB3.entriesOf 1)).map List.length)).map
        (fun d => (d, d * 100 / (exTaxDB3.entriesOf 1).length)) ∧
    (buildIndexAsync exTaxDB3 exEmbedOk "j1" "brsr" exJobs0 exNoVecIndex
        exNoVecIndex).trace.Pairwise (fun a b => a.2 ≤ b.2) ∧
    (buildIndexAsync exTaxDB3 exEmbedOk "j1" "brsr" exJobs0 exNoVecIndex
        exNoVecIndex).trace.getLast? =
      some ((exTaxDB3.entriesOf 1).length, 100) ∧
    (∃ s' : JobState,
      JobsManager.get
          (buildIndexAsync exTaxDB3 exEmbedOk "j1" "brsr" exJobs0
            exNoVecIndex exNoVecIndex).jobs "j1" = some s' ∧
      s'.status = "completed" ∧
      s'.done = (exTaxDB3.entriesOf 1).length ∧
      s'.total = (exTaxDB3.entriesOf 1).length) ∧
    (∃ vsf : VecIndex,
      (buildIndexAsync exTaxDB3 exEmbedOk "j1" "brsr" exJobs0 exNoVecIndex
        exNoVecIndex).returned = some vsf ∧
      (buildIndexAsync exTaxDB3 exEmbedOk "j1" "brsr" exJobs0 exNoVecIndex
        exNoVecIndex).cache "brsr" = some vsf ∧
      (buildIndexAsync exTaxDB3 exEmbedOk "j1" "brsr" exJobs0 exNoVecIndex
        exNoVecIndex).disk "brsr" = some vsf)) :=
  ⟨rfl, by simp [exTaxDB3], fun ts => ⟨ts.map (fun _ => [(0 : ℝ)]), rfl⟩,
    rfl,
    build_progress_accounting exTaxDB3 exEmbedOk "j1" "brsr" exJobs0
      exNoVecIndex exNoVecIndex 1 {} rfl (by simp [exTaxDB3])
      (fun ts => ⟨ts.map (fun _ => [(0 : ℝ)]), rfl⟩) rfl⟩

end XbrlTag
